import Mathlib

/-!
Verification of the fits-rs binary decoding engine (ssmichael1/fits-rs).

This file is a shallow embedding, in Lean 4, of the parts of the crate that
the checked properties talk about:

* the binary-table column-type grammar (`src/bintable/tform.rs`),
* the ASCII table decoder (`src/table/mod.rs`),
* the binary table decoder and cell accessor (`src/bintable/mod.rs`),
* the image decoder (`src/image/mod.rs`),
* the keyword-record / header-block scanners (`src/header/`),
* the HDU dispatcher (`src/hdu/mod.rs`).

Modelling conventions:

* Rust byte slices become `List Nat` (each entry < 256).
* `usize`, `u16`, `i64` become `Nat` / `Int`; where the Rust code performs an
  `as` cast, the two's-complement wrap is written out explicitly.
* `f64` values become `Rat`.  The properties proved here never depend on IEEE
  rounding: every multiplication/addition that appears is also the one the
  claims quantify over, with small decimal literals.
* Fallible Rust code (`Result`) becomes `Except FErr`.  A Rust panic
  (out-of-range slice index, `unwrap` of `None`, wrapping subtraction used as
  an index) is modelled by the distinguished error `FErr.rustPanic`, so that
  "returns an error" and "panics" are distinguishable outcomes.
* `str::parse` for integers/floats is modelled by executable parsers on the
  decimal grammar; `String::from_utf8` is modelled on the ASCII subset (all
  inputs exercised by the FITS layout are ASCII).
-/

namespace Fits

/-- Tagged union of keyword values (src/header/keyword.rs, `KeywordValue`).
`f64` payloads are modelled as `Rat`. -/
inductive KeywordValue where
  | None
  | Bool (b : Bool)
  | String (s : String)
  | Int (i : Int)
  | Float (f : Rat)
  | ComplexInt (re im : Int)
  | ComplexFloat (re im : Rat)
  | Undefined
deriving DecidableEq, Repr

/-- Error type: union of the `FITSError`/`HeaderError` variants used by the
decoders (src/errors.rs), plus `rustPanic` for Rust panics and `parseFail`
for propagated `std` parse errors. -/
inductive FErr where
  | InvalidHeader
  | BadKeywordLength (n : Nat)
  | InvalidCharacterInKeyword (s : String)
  | InvalidKeywordRecord (s : String)
  | GenericError (s : String)
  | InvalidKeywordPlacement (name : String) (idx : Nat)
  | UnsupportedExtension (s : String)
  | UnexpectedValueType (s : String)
  | UnexpectedKeywordValue (name : String) (value : KeywordValue)
  | MissingKeyword (s : String)
  | InvalidTForm (s : String)
  | InvalidDataSize (expected got : Nat)
  | InvalidRow (row maxrow : Nat)
  | InvalidColumn (col maxcol : Nat)
  | rustPanic
  | parseFail
deriving DecidableEq, Repr

/-- One keyword record (src/header/keyword.rs, `Keyword`). -/
structure Keyword where
  name : String
  value : KeywordValue
  comment : Option String
deriving DecidableEq, Repr

/-- `Keyword::default()`: empty name, no value, no comment. -/
def Keyword.default : Keyword := ⟨"", KeywordValue.None, Option.none⟩

/-- A header is an ordered list of keywords (src/header/mod.rs, `Header` is a
thin wrapper around `Vec<Keyword>`). -/
abbrev Header := List Keyword

/-- `Header::find` (src/header/mod.rs): first keyword with the given name. -/
def Header.find (h : Header) (key : String) : Option Keyword :=
  List.find? (fun x => x.name = key) h

/-- `Header::value` (src/header/mod.rs). -/
def Header.value (h : Header) (key : String) : Option KeywordValue :=
  (h.find key).map Keyword.value

/-- `Header::value_string` (src/header/mod.rs). -/
def Header.valueString (h : Header) (key : String) : Option String :=
  match h.value key with
  | Option.some (KeywordValue.String s) => Option.some s
  | _ => Option.none

/-- `Header::value_int` (src/header/mod.rs). -/
def Header.valueInt (h : Header) (key : String) : Option Int :=
  match h.value key with
  | Option.some (KeywordValue.Int i) => Option.some i
  | _ => Option.none

/-- `Header::value_float` (src/header/mod.rs). -/
def Header.valueFloat (h : Header) (key : String) : Option Rat :=
  match h.value key with
  | Option.some (KeywordValue.Float f) => Option.some f
  | _ => Option.none

/-- `Vec`/slice indexing `v[i]`, which panics when out of range. -/
def idx {α : Type} (l : List α) (i : Nat) : Except FErr α :=
  match l.get? i with
  | Option.some v => Except.ok v
  | Option.none => Except.error FErr.rustPanic

/-- Rust range slicing `l[a..b]`, which panics when `a > b` or `b > l.len()`. -/
def rustSlice {α : Type} (l : List α) (a b : Nat) : Except FErr (List α) :=
  if a ≤ b ∧ b ≤ l.length then Except.ok ((l.drop a).take (b - a))
  else Except.error FErr.rustPanic

/-- Digits of a decimal numeral folded into a `Nat`. -/
def natOfDigits (cs : List Char) : Nat :=
  cs.foldl (fun a c => a * 10 + (c.toNat - 48)) 0

/-- Models `str::parse::<usize>()` at its use sites: succeeds exactly on a
nonempty run of ASCII digits (overflow does not arise in the checked
properties; the rarely-used leading `+` form is not modelled). -/
def parseUsize (cs : List Char) : Except FErr Nat :=
  if cs ≠ [] ∧ cs.all Char.isDigit then Except.ok (natOfDigits cs)
  else Except.error FErr.parseFail

/-- Models `str::parse::<i64>()`: optional sign, then a nonempty digit run. -/
def parseI64 (s : String) : Except FErr Int :=
  let core : List Char → Except FErr Int := fun ds =>
    if ds ≠ [] ∧ ds.all Char.isDigit then Except.ok (natOfDigits ds : Int)
    else Except.error FErr.parseFail
  match s.data with
  | '+' :: t => core t
  | '-' :: t => (core t).map (fun v => -v)
  | t => core t

/-! ## TForm grammar (src/bintable/tform.rs) -/

/-- Elemental types of a binary-table column (`TFormType`).  The Rust
`Rc<TFormType>` held by the variable-array constructors is inlined as a
nested value; `PartialEq` on `Rc` compares contents, so equality agrees. -/
inductive TFormType where
  | Logical
  | Bit
  | UnsignedByte
  | Int16
  | Int32
  | Int64
  | Char
  | Float32
  | Float64
  | Complex32
  | Complex64
  | ArrayD32 (inner : TFormType) (maxlen : Nat)
  | ArrayD64 (inner : TFormType) (maxlen : Nat)
deriving DecidableEq, Repr

/-- `TFormType::default()` is `UnsignedByte` (the `#[default]` attribute). -/
def TFormType.default : TFormType := TFormType.UnsignedByte

/-- The form (type) of a binary-table column: elemental type and repeat
count (`TForm`). -/
structure TForm where
  dtype : TFormType
  repeats : Nat
deriving DecidableEq, Repr

/-- The per-element byte-size match inside `TForm::bytes` (tform.rs lines
126-152).  In the two variable-array arms the source computes
`r * TForm { dtype: inner, repeats: 1 }.bytes()`; that inner call is inlined
here (`bytes` at `repeats = 1` is `1` for `Bit` and `elemBytes * 1`
otherwise), which keeps the recursion structural.  The lemma
`tform_bytes_one` below shows the inlining agrees with `TForm.bytes`. -/
def TFormType.elemBytes : TFormType → Nat
  | TFormType.Logical => 1
  | TFormType.Bit => 1
  | TFormType.UnsignedByte => 1
  | TFormType.Int16 => 2
  | TFormType.Int32 => 4
  | TFormType.Int64 => 8
  | TFormType.Char => 1
  | TFormType.Float32 => 4
  | TFormType.Float64 => 8
  | TFormType.Complex32 => 8
  | TFormType.Complex64 => 16
  | TFormType.ArrayD32 v r =>
      r * (if v = TFormType.Bit then 1 else v.elemBytes * 1)
  | TFormType.ArrayD64 v r =>
      r * (if v = TFormType.Bit then 1 else v.elemBytes * 1)

/-- `TForm::bytes` (tform.rs lines 117-153): `Bit` is packed to
`ceil(repeats/8)` bytes via the explicit `% 8` test of the source; every
other type multiplies the element size by the repeat count. -/
def TForm.bytes (t : TForm) : Nat :=
  if t.dtype = TFormType.Bit then
    if t.repeats % 8 = 0 then t.repeats / 8 else t.repeats / 8 + 1
  else
    t.dtype.elemBytes * t.repeats

theorem tform_bytes_one (v : TFormType) :
    (TForm.mk v 1).bytes = if v = TFormType.Bit then 1 else v.elemBytes * 1 := by
  cases v <;> simp [TForm.bytes]

/-- `tform_type_from_char` (tform.rs lines 34-51). -/
def tformTypeFromChar (c : Char) : Except FErr TFormType :=
  if c = 'L' then Except.ok TFormType.Logical
  else if c = 'X' then Except.ok TFormType.Bit
  else if c = 'B' then Except.ok TFormType.UnsignedByte
  else if c = 'I' then Except.ok TFormType.Int16
  else if c = 'J' then Except.ok TFormType.Int32
  else if c = 'K' then Except.ok TFormType.Int64
  else if c = 'A' then Except.ok TFormType.Char
  else if c = 'E' then Except.ok TFormType.Float32
  else if c = 'D' then Except.ok TFormType.Float64
  else if c = 'C' then Except.ok TFormType.Complex32
  else if c = 'M' then Except.ok TFormType.Complex64
  else if c = 'P' then Except.ok (TFormType.ArrayD32 TFormType.default 0)
  else if c = 'Q' then Except.ok (TFormType.ArrayD64 TFormType.default 0)
  else Except.error (FErr.InvalidTForm (String.mk [c]))

/-- `TForm::from_string` (tform.rs lines 54-108).  Note that in the
variable-array branch the source re-reads the character at index
`numstr.len()` — the `P`/`Q` letter itself — as the nested type, and only a
directly following parenthesized integer sets the maximum length. -/
def TForm.fromString (s : String) : Except FErr TForm :=
  if s = "" then Except.error (FErr.InvalidTForm s)
  else
    let cs := s.data
    let numstr := cs.takeWhile Char.isDigit
    (if numstr ≠ [] then parseUsize numstr else Except.ok 1).bind fun repeats =>
    match cs.get? numstr.length with
    | Option.none => Except.error (FErr.InvalidTForm s)
    | Option.some hc =>
      (tformTypeFromChar hc).bind fun dtype =>
      if dtype = TFormType.ArrayD32 TFormType.default 0 ∨
         dtype = TFormType.ArrayD64 TFormType.default 0 then
        match cs.get? numstr.length with
        | Option.none => Except.error (FErr.InvalidTForm s)
        | Option.some tchar =>
          (tformTypeFromChar tchar).bind fun ttype =>
          let arrstr := cs.drop (numstr.length + 1)
          (if arrstr.head? = Option.some '(' then
             parseUsize ((arrstr.drop 1).takeWhile (fun c => c ≠ ')'))
           else Except.ok 0).bind fun n =>
          if dtype = TFormType.ArrayD32 TFormType.default 0 then
            Except.ok (TForm.mk (TFormType.ArrayD32 ttype n) repeats)
          else
            Except.ok (TForm.mk (TFormType.ArrayD64 ttype n) repeats)
      else
        Except.ok (TForm.mk dtype repeats)

/-! ## Claims C1 and C5 -/

/-- C1: for every repeat count `r`, `TForm::bytes` returns `r` times the
element byte size for each fixed-size element type other than `Bit`
(`Logical`, `UnsignedByte`, `Char` 1 byte; `Int16` 2; `Int32`, `Float32` 4;
`Int64`, `Float64`, `Complex32` 8; `Complex64` 16), and returns
`ceil(r/8) = (r+7)/8` for `Bit`. -/
theorem c1_tform_fixed_bytes (r : Nat) :
    (TForm.mk TFormType.Logical r).bytes = r * 1 ∧
    (TForm.mk TFormType.UnsignedByte r).bytes = r * 1 ∧
    (TForm.mk TFormType.Int16 r).bytes = r * 2 ∧
    (TForm.mk TFormType.Int32 r).bytes = r * 4 ∧
    (TForm.mk TFormType.Int64 r).bytes = r * 8 ∧
    (TForm.mk TFormType.Char r).bytes = r * 1 ∧
    (TForm.mk TFormType.Float32 r).bytes = r * 4 ∧
    (TForm.mk TFormType.Float64 r).bytes = r * 8 ∧
    (TForm.mk TFormType.Complex32 r).bytes = r * 8 ∧
    (TForm.mk TFormType.Complex64 r).bytes = r * 16 ∧
    (TForm.mk TFormType.Bit r).bytes = (r + 7) / 8 := by
  refine ⟨?_, ?_, ?_, ?_, ?_, ?_, ?_, ?_, ?_, ?_, ?_⟩ <;>
    simp only [TForm.bytes, TFormType.elemBytes, reduceCtorEq, if_false, if_pos,
      reduceIte] <;>
    first
      | omega
      | (split <;> omega)

/-- C5 counterexample: the claim says a variable-array descriptor of repeat
count `r` has `bytes() = r * 4` (P) or `r * 8` (Q) regardless of the nested
type and maximum-length hint.  In the code, `bytes()` multiplies the
maximum-length hint by the nested element size instead: parsing "PJ(5)"
yields a descriptor whose `bytes()` is `0`, and the directly built
descriptor `ArrayD32(Int16, 3)` with repeat count 1 has `bytes() = 6`,
not `1 * 4`. -/
theorem c5_counterexample :
    (TForm.fromString "PJ(5)").map TForm.bytes = Except.ok 0 ∧
    (TForm.mk (TFormType.ArrayD32 TFormType.Int16 3) 1).bytes = 6 ∧
    ¬ (TForm.mk (TFormType.ArrayD32 TFormType.Int16 3) 1).bytes = 1 * 4 := by
  refine ⟨by rfl, by rfl, by decide⟩

/-- C5 amended: for a variable-array descriptor with nested type `inner`,
maximum-length hint `m` and repeat count `r`, `TForm::bytes` returns
`(m * bytes(inner, repeat 1)) * r` for both the P (`ArrayD32`) and Q
(`ArrayD64`) forms — the hint times the nested element byte size, not the
size of a heap pointer pair. -/
theorem c5_amended (inner : TFormType) (m r : Nat) :
    (TForm.mk (TFormType.ArrayD32 inner m) r).bytes
      = (m * (TForm.mk inner 1).bytes) * r ∧
    (TForm.mk (TFormType.ArrayD64 inner m) r).bytes
      = (m * (TForm.mk inner 1).bytes) * r := by
  rw [tform_bytes_one]
  constructor <;> simp [TForm.bytes, TFormType.elemBytes]

/-! ## String / numeric std-library models -/

/-- ASCII whitespace as used by `str::trim` on the strings that occur here. -/
def isWs (c : Char) : Bool := c = ' ' ∨ c = '\t' ∨ c = '\n' ∨ c = '\r'

/-- Models `str::trim` (and `trim_ascii`): strip whitespace on both ends. -/
def rustTrim (s : String) : String :=
  String.mk (((s.data.dropWhile isWs).reverse.dropWhile isWs).reverse)

/-- Models `str::trim_start`. -/
def rustTrimStart (s : String) : String := String.mk (s.data.dropWhile isWs)

/-- Models `String::from_utf8` on the ASCII subset: every byte below 128
decodes to the corresponding character; other inputs are treated as the
error case (all strings produced by the FITS layout paths are ASCII). -/
def rustFromUtf8 (bs : List Nat) : Except FErr String :=
  if bs.all (fun b => b < 128) then Except.ok (String.mk (bs.map Char.ofNat))
  else Except.error FErr.parseFail

/-- Exponent tail of a float literal: optional sign then a digit run. -/
def expPart (m : Rat) (t : List Char) : Except FErr Rat :=
  let core : List Char → Bool → Except FErr Rat := fun u neg =>
    if u ≠ [] ∧ u.all Char.isDigit then
      Except.ok (if neg then m / (10 : Rat) ^ natOfDigits u
                 else m * (10 : Rat) ^ natOfDigits u)
    else Except.error FErr.parseFail
  match t with
  | '+' :: u => core u false
  | '-' :: u => core u true
  | u => core u false

/-- What may follow the mantissa of a float literal: nothing, or an
`e`/`E` exponent. -/
def applyExp (m : Rat) (rest : List Char) : Except FErr Rat :=
  match rest with
  | [] => Except.ok m
  | 'e' :: t => expPart m t
  | 'E' :: t => expPart m t
  | _ => Except.error FErr.parseFail

/-- Models `str::parse::<f64>()` on the decimal grammar
`[+-]? digits [. digits] [eE [+-]? digits]` (also `.digits` forms), producing
an exact `Rat`.  The special forms `inf`/`NaN` are not modelled; no checked
property involves them. -/
def parseF64 (s : String) : Except FErr Rat :=
  let go : List Char → Except FErr Rat := fun cs =>
    let ip := cs.takeWhile Char.isDigit
    let rest := cs.drop ip.length
    match rest with
    | '.' :: rest2 =>
        let fp := rest2.takeWhile Char.isDigit
        let rest3 := rest2.drop fp.length
        if ip = [] ∧ fp = [] then Except.error FErr.parseFail
        else applyExp ((natOfDigits ip : Rat)
                        + (natOfDigits fp : Rat) / (10 : Rat) ^ fp.length) rest3
    | _ =>
        if ip = [] then Except.error FErr.parseFail
        else applyExp (natOfDigits ip : Rat) rest
  match s.data with
  | '+' :: t => go t
  | '-' :: t => (go t).map (fun v => -v)
  | t => go t

/-- Rust `expr as i64` applied to an `f64`: truncation toward zero (the
saturating behaviour at the i64 bounds is never reached here). -/
def ratTruncToI64 (q : Rat) : Int := Int.tdiv q.num (q.den : Int)

/-- Rust `expr as usize` applied to an `i64`: two's-complement wrap. -/
def usizeOfI64 (i : Int) : Nat := (i % (2 : Int) ^ 64).toNat

/-- Rust `expr as u16` applied to an `i64`: two's-complement wrap. -/
def u16OfI64 (i : Int) : Nat := (i % (2 : Int) ^ 16).toNat

/-- `str::replace(&s, "D", "E")` for the single-character pattern used by
the decoders. -/
def replaceDE (s : String) : String :=
  String.mk (s.data.map (fun c => if c = 'D' then 'E' else c))

/-! ## TDisp grammar (src/tdisp/mod.rs) -/

/-- Display-format descriptor (`TDisp`). -/
inductive TDisp where
  | None
  | Char (w : Nat)
  | Logical (w : Nat)
  | Int (w m : Nat)
  | Bin (w m : Nat)
  | Oct (w m : Nat)
  | Hex (w m : Nat)
  | Float (w d : Nat)
  | FloatGen (w d e : Nat)
  | FloatExp (w d e : Nat)
deriving DecidableEq, Repr

/-- `wmfromstr` (tdisp/mod.rs lines 21-34): split on `.`, parse width and
optional second field (default 0; the source parses the second field before
the width). -/
def wmfromstr (s : String) : Except FErr (Nat × Nat) :=
  match s.splitOn "." with
  | [] => Except.error (FErr.GenericError "Invalid TDISP value")
  | w :: rest =>
    (match rest with
     | m :: _ => parseUsize m.data
     | [] => Except.ok 0).bind fun m =>
    (parseUsize w.data).map fun wv => (wv, m)

/-- `wdefromstr` (tdisp/mod.rs lines 36-55): `w[.d[E e]]`, defaults 0. -/
def wdefromstr (s : String) : Except FErr (Nat × Nat × Nat) :=
  match s.splitOn "." with
  | [] => Except.error (FErr.GenericError "Invalid TDISP value")
  | w :: rest =>
    (parseUsize w.data).bind fun wv =>
    match rest with
    | [] => Except.ok (wv, 0, 0)
    | dstr :: _ =>
      match dstr.splitOn "E" with
      | [] => Except.error (FErr.GenericError "Invalid TDISP value")
      | ds :: rest2 =>
        (parseUsize ds.data).bind fun d =>
        match rest2 with
        | [] => Except.ok (wv, d, 0)
        | es :: _ =>
          (parseUsize es.data).map fun e => (wv, d, e)

/-- `TDisp::from_keyword` (tdisp/mod.rs lines 60-121). -/
def TDisp.fromKeyword (kw : Keyword) : Except FErr TDisp :=
  match kw.value with
  | KeywordValue.String v =>
    match v.data with
    | [] => Except.error (FErr.GenericError "Invalid TDISP value")
    | c :: fstr =>
      if c = 'A' then (parseUsize fstr).map TDisp.Char
      else if c = 'L' then (parseUsize fstr).map TDisp.Logical
      else if c = 'I' then
        (wmfromstr (String.mk fstr)).map fun p => TDisp.Int p.1 p.2
      else if c = 'B' then
        (wmfromstr (String.mk fstr)).map fun p => TDisp.Bin p.1 p.2
      else if c = 'O' then
        (wmfromstr (String.mk fstr)).map fun p => TDisp.Oct p.1 p.2
      else if c = 'Z' then
        (wmfromstr (String.mk fstr)).map fun p => TDisp.Hex p.1 p.2
      else if c = 'F' then
        (wmfromstr (String.mk fstr)).map fun p => TDisp.Float p.1 p.2
      else if c = 'G' then
        (wdefromstr (String.mk fstr)).map fun p => TDisp.FloatGen p.1 p.2.1 p.2.2
      else if c = 'D' then
        (wdefromstr (String.mk fstr)).map fun p => TDisp.FloatExp p.1 p.2.1 p.2.2
      else if c = 'E' then
        match fstr with
        | d :: fstr2 =>
          if d = 'N' ∨ d = 'S' then
            (wmfromstr (String.mk fstr2)).map fun p => TDisp.FloatExp p.1 p.2 3
          else
            (wdefromstr (String.mk fstr)).map fun p => TDisp.FloatExp p.1 p.2.1 p.2.2
        | [] =>
          (wdefromstr (String.mk fstr)).map fun p => TDisp.FloatExp p.1 p.2.1 p.2.2
      else Except.error (FErr.GenericError "Invalid TDISP value")
  | _ => Except.error (FErr.GenericError "Invalid TDISP value")

/-! ## ASCII table decoder (src/table/mod.rs) -/

/-- Cell values of an ASCII table (src/types.rs, `TValue`). -/
inductive TValue where
  | String (s : String)
  | Int (i : Int)
  | Float (f : Rat)
  | Null
deriving DecidableEq, Repr

/-- The private ASCII-table column form (table/mod.rs lines 11-17). -/
inductive Table.TForm where
  | Char (w : Nat)
  | Int (w : Nat)
  | FloatDec (w d : Nat)
  | FloatE (w d : Nat)
  | FloatD (w d : Nat)
deriving DecidableEq, Repr

/-- ASCII table payload (table/mod.rs, `Table`). -/
structure Table where
  nfields : Nat
  fieldnames : List String
  scale : List (Option Rat)
  zero : List (Option Rat)
  tlmin : List (Option Rat)
  tlmax : List (Option Rat)
  tdmin : List (Option Rat)
  tdmax : List (Option Rat)
  data : List (List TValue)
  units : List (Option String)
deriving DecidableEq, Repr

/-- `Table::tform_from_keyword` (table/mod.rs lines 48-92).  For the
`F`/`E`/`D` forms the source calls `iter.next().unwrap()` on the split —
a missing `.` part is a panic, not an error. -/
def Table.tformFromKeyword (kw : Keyword) : Except FErr Table.TForm :=
  match kw.value with
  | KeywordValue.String v =>
    if v.length < 2 then Except.error (FErr.GenericError "Invalid TFORM value")
    else
      match v.data with
      | [] => Except.error (FErr.GenericError "Invalid TFORM value")
      | c :: t =>
        if c = 'A' then (parseUsize t).map Table.TForm.Char
        else if c = 'I' then (parseUsize t).map Table.TForm.Int
        else if c = 'F' then
          match (String.mk t).splitOn "." with
          | w :: d :: _ =>
            (parseUsize w.data).bind fun wv =>
            (parseUsize d.data).map fun dv => Table.TForm.FloatDec wv dv
          | _ => Except.error FErr.rustPanic
        else if c = 'E' then
          match (String.mk t).splitOn "." with
          | w :: d :: _ =>
            (parseUsize w.data).bind fun wv =>
            (parseUsize d.data).map fun dv => Table.TForm.FloatE wv dv
          | _ => Except.error FErr.rustPanic
        else if c = 'D' then
          match (String.mk t).splitOn "." with
          | w :: d :: _ =>
            (parseUsize w.data).bind fun wv =>
            (parseUsize d.data).map fun dv => Table.TForm.FloatD wv dv
          | _ => Except.error FErr.rustPanic
        else Except.error (FErr.GenericError "Invalid TFORM value")
  | _ => Except.error (FErr.GenericError "Invalid TFORM value")

/-- The per-column cell decode: the `match &tform[j]` block of
`Table::from_bytes` (table/mod.rs lines 436-504).  It returns the list of
values pushed onto the row for this one column; note that the `Int` arm of
the source pushes a second, unconditionally re-parsed value (line 456). -/
def Table.decodeData (tf : Table.TForm) (scale zero : Option Rat)
    (rowbytes : List Nat) (offset : Nat) : Except FErr (List TValue) :=
  match tf with
  | Table.TForm.Char w =>
      (rustSlice rowbytes offset (offset + w)).bind fun bs =>
      (rustFromUtf8 bs).map fun s => [TValue.String s]
  | Table.TForm.Int w =>
      (rustSlice rowbytes offset (offset + w)).bind fun bs =>
      (rustFromUtf8 bs).bind fun s0 =>
      let s := rustTrim s0
      (match scale with
       | Option.some sc =>
         (match zero with
          | Option.some z =>
            (parseF64 s).map fun q => TValue.Int (ratTruncToI64 (q * sc + z))
          | Option.none =>
            (parseF64 s).map fun q => TValue.Int (ratTruncToI64 (q * sc)))
       | Option.none =>
         (parseI64 s).map TValue.Int).bind fun v1 =>
      (parseI64 s).map fun v2 => [v1, TValue.Int v2]
  | Table.TForm.FloatDec w _d =>
      (rustSlice rowbytes offset (offset + w)).bind fun bs =>
      (rustFromUtf8 bs).bind fun s0 =>
      let s := rustTrim s0
      match scale with
      | Option.some sc =>
        (match zero with
         | Option.some z =>
           (parseF64 s).map fun q => [TValue.Float (q * sc + z)]
         | Option.none =>
           (parseF64 s).map fun q => [TValue.Float (q * sc)])
      | Option.none => (parseF64 s).map fun q => [TValue.Float q]
  | Table.TForm.FloatE w _d =>
      (rustSlice rowbytes offset (offset + w)).bind fun bs =>
      (rustFromUtf8 bs).bind fun s0 =>
      let s := rustTrim s0
      match scale with
      | Option.some sc =>
        (match zero with
         | Option.some z =>
           (parseF64 s).map fun q => [TValue.Float (q * sc + z)]
         | Option.none =>
           (parseF64 s).map fun q => [TValue.Float (q * sc)])
      | Option.none => (parseF64 s).map fun q => [TValue.Float q]
  | Table.TForm.FloatD w _d =>
      (rustSlice rowbytes offset (offset + w)).bind fun bs =>
      (rustFromUtf8 bs).bind fun s0 =>
      let s := replaceDE (rustTrim s0)
      match scale with
      | Option.some sc =>
        (match zero with
         | Option.some z =>
           (parseF64 s).map fun q => [TValue.Float (q * sc + z)]
         | Option.none =>
           (parseF64 s).map fun q => [TValue.Float (q * sc)])
      | Option.none => (parseF64 s).map fun q => [TValue.Float q]

/-- One column of one row (table/mod.rs lines 423-505): the null-sentinel
prefix check runs first, and on a match pushes `Null` and skips the value
parse entirely (`continue`).  The source computes `offset = tcol[j] - 1` on
a `usize`: for `tcol[j] = 0` that subtraction panics in debug builds and in
release wraps to `usize::MAX`, where every following slice panics — either
way a panic, modelled by the explicit guard. -/
def Table.decodeCell (tf : Table.TForm) (scale zero : Option Rat)
    (tnull : Option String) (rowbytes : List Nat) (tbcol : Nat) :
    Except FErr (List TValue) :=
  if tbcol = 0 then Except.error FErr.rustPanic else
  let offset := tbcol - 1
  match tnull with
  | Option.some nullstr =>
      (rustSlice rowbytes offset (offset + nullstr.length)).bind fun bs =>
      (rustFromUtf8 bs).bind fun s =>
      if s = nullstr then Except.ok [TValue.Null]
      else Table.decodeData tf scale zero rowbytes offset
  | Option.none => Table.decodeData tf scale zero rowbytes offset

/-- Per-column configuration collected by the keyword loop of
`Table::from_bytes` (table/mod.rs lines 267-409); the source stores these in
parallel vectors, bundled here per column. -/
structure Table.Col where
  tcol : Nat
  name : String
  tnull : Option String
  tform : Table.TForm
  tdisp : TDisp
  scale : Option Rat
  zero : Option Rat
  unit : Option String
  tdmin : Option Rat
  tdmax : Option Rat
  tlmin : Option Rat
  tlmax : Option Rat
deriving DecidableEq, Repr

/-- One iteration of the column-keyword loop (table/mod.rs lines 267-409)
for 0-based column index `i`. -/
def Table.readCol (header : Header) (i : Nat) : Except FErr Table.Col :=
  (match header.find ("TBCOL" ++ toString (i + 1)) with
   | Option.none => Except.error (FErr.GenericError "Missing TBCOL keyword")
   | Option.some kw =>
     match kw.value with
     | KeywordValue.Int v => Except.ok (usizeOfI64 v)
     | _ => Except.error (FErr.GenericError "Invalid TBCOL value")).bind fun tcol =>
  (match header.find ("TTYPE" ++ toString (i + 1)) with
   | Option.none => Except.error (FErr.GenericError "Missing TTYPE keyword")
   | Option.some kw =>
     match kw.value with
     | KeywordValue.String v => Except.ok v
     | _ => Except.error (FErr.GenericError "Invalid TTYPE value")).bind fun name =>
  (match header.find ("TNULL" ++ toString (i + 1)) with
   | Option.none => Except.ok Option.none
   | Option.some kw =>
     match kw.value with
     | KeywordValue.String v => Except.ok (Option.some v)
     | _ => Except.error (FErr.GenericError "Invalid TNULL value")).bind fun tnull =>
  (match header.find ("TFORM" ++ toString (i + 1)) with
   | Option.none => Except.error (FErr.GenericError "Missing TFORM keyword")
   | Option.some kw => Table.tformFromKeyword kw).bind fun tform =>
  (match header.find ("TDISP" ++ toString (i + 1)) with
   | Option.none => Except.ok TDisp.None
   | Option.some kw => TDisp.fromKeyword kw).bind fun tdisp =>
  (match header.find ("TSCAL" ++ toString (i + 1)) with
   | Option.none => Except.ok Option.none
   | Option.some kw =>
     match kw.value with
     | KeywordValue.Float v => Except.ok (Option.some v)
     | _ => Except.error (FErr.GenericError "Invalid TSCAL value")).bind fun scale =>
  (match header.find ("TZERO" ++ toString (i + 1)) with
   | Option.none => Except.ok Option.none
   | Option.some kw =>
     match kw.value with
     | KeywordValue.Float v => Except.ok (Option.some v)
     | _ => Except.error (FErr.GenericError "Invalid TZERO value")).bind fun zero =>
  (match header.find ("TUNIT" ++ toString (i + 1)) with
   | Option.none => Except.ok Option.none
   | Option.some kw =>
     match kw.value with
     | KeywordValue.String v => Except.ok (Option.some v)
     | _ => Except.error (FErr.GenericError "Invalid TUNIT value")).bind fun unit =>
  (match header.find ("TDMIN" ++ toString (i + 1)) with
   | Option.none => Except.ok Option.none
   | Option.some kw =>
     match kw.value with
     | KeywordValue.Float v => Except.ok (Option.some v)
     | _ => Except.error (FErr.GenericError "Invalid TDMIN value")).bind fun tdmin =>
  (match header.find ("TDMAX" ++ toString (i + 1)) with
   | Option.none => Except.ok Option.none
   | Option.some kw =>
     match kw.value with
     | KeywordValue.Float v => Except.ok (Option.some v)
     | _ => Except.error (FErr.GenericError "Invalid TDMAX value")).bind fun tdmax =>
  (match header.find ("TLMIN" ++ toString (i + 1)) with
   | Option.none => Except.ok Option.none
   | Option.some kw =>
     match kw.value with
     | KeywordValue.Float v => Except.ok (Option.some v)
     | _ => Except.error (FErr.GenericError "Invalid TLMIN value")).bind fun tlmin =>
  (match header.find ("TLMAX" ++ toString (i + 1)) with
   | Option.none => Except.ok Option.none
   | Option.some kw =>
     match kw.value with
     | KeywordValue.Float v => Except.ok (Option.some v)
     | _ => Except.error (FErr.GenericError "Invalid TLMAX value")).map fun tlmax =>
  Table.Col.mk tcol name tnull tform tdisp scale zero unit tdmin tdmax tlmin tlmax

/-- The column loop `for i in 0..table.nfields` of `Table::from_bytes`. -/
def Table.readCols (header : Header) : Nat → Nat → Except FErr (List Table.Col)
  | _, 0 => Except.ok []
  | i, Nat.succ k =>
      (Table.readCol header i).bind fun c =>
      (Table.readCols header (i + 1) k).map fun rest => c :: rest

/-- The inner `for j in 0..table.nfields` loop of the row decode. -/
def Table.decodeRow (cfgs : List Table.Col) (rowbytes : List Nat) :
    Except FErr (List TValue) :=
  match cfgs with
  | [] => Except.ok []
  | c :: rest =>
      (Table.decodeCell c.tform c.scale c.zero c.tnull rowbytes c.tcol).bind fun vs =>
      (Table.decodeRow rest rowbytes).map fun vrest => vs ++ vrest

/-- The outer `for i in 0..nrows` loop of the row decode (table/mod.rs lines
420-507): row `i` reads `rawbytes[i*nrowchars..(i+1)*nrowchars]`. -/
def Table.decodeRows (cfgs : List Table.Col) (raw : List Nat)
    (nrowchars : Nat) : Nat → Nat → Except FErr (List (List TValue))
  | _, 0 => Except.ok []
  | i, Nat.succ k =>
      (rustSlice raw (i * nrowchars) ((i + 1) * nrowchars)).bind fun rowbytes =>
      (Table.decodeRow cfgs rowbytes).bind fun row =>
      (Table.decodeRows cfgs raw nrowchars (i + 1) k).map fun rest => row :: rest

/-- The positional keyword prefix of `Table::from_bytes` (table/mod.rs lines
104-254): BITPIX=8, NAXIS=2, NAXIS1, NAXIS2, PCOUNT=0, GCOUNT=1, TFIELDS at
indices 1..7; returns `(nrowchars, nrows, nfields)`. -/
def Table.prefixMeta (header : Header) : Except FErr (Nat × Nat × Nat) :=
  (match header.get? 1 with
   | Option.none => Except.error (FErr.MissingKeyword "BITPIX")
   | Option.some kw =>
     if kw.name ≠ "BITPIX" then
       Except.error (FErr.InvalidKeywordPlacement kw.name 1)
     else match kw.value with
       | KeywordValue.Int v =>
         if v ≠ 8 then Except.error (FErr.GenericError "Invalid BITPIX value")
         else Except.ok ()
       | _ => Except.error (FErr.GenericError "Invalid BITPIX value")).bind fun _ =>
  (match header.get? 2 with
   | Option.none => Except.error (FErr.GenericError "not enough keywords")
   | Option.some kw =>
     if kw.name ≠ "NAXIS" then
       Except.error (FErr.InvalidKeywordPlacement kw.name 2)
     else match kw.value with
       | KeywordValue.Int v =>
         if v ≠ 2 then Except.error (FErr.GenericError "Invalid NAXIS value")
         else Except.ok ()
       | _ => Except.error (FErr.GenericError "Invalid NAXIS value")).bind fun _ =>
  (match header.get? 3 with
   | Option.none => Except.error (FErr.GenericError "not enough keywords")
   | Option.some kw =>
     if kw.name ≠ "NAXIS1" then
       Except.error (FErr.InvalidKeywordPlacement kw.name 3)
     else match kw.value with
       | KeywordValue.Int v => Except.ok (usizeOfI64 v)
       | _ => Except.error
           (FErr.GenericError "Invalid NROWCHARS (NAXIS1) value")).bind fun nrowchars =>
  (match header.get? 4 with
   | Option.none => Except.error (FErr.GenericError "not enough keywords")
   | Option.some kw =>
     if kw.name ≠ "NAXIS2" then
       Except.error (FErr.InvalidKeywordPlacement kw.name 4)
     else match kw.value with
       | KeywordValue.Int v => Except.ok (usizeOfI64 v)
       | _ => Except.error
           (FErr.GenericError "Invalid NROWS (NAXIS2) value")).bind fun nrows =>
  (match header.get? 5 with
   | Option.none => Except.error (FErr.GenericError "not enough keywords")
   | Option.some kw =>
     if kw.name ≠ "PCOUNT" then
       Except.error (FErr.InvalidKeywordPlacement kw.name 5)
     else match kw.value with
       | KeywordValue.Int v =>
         if v ≠ 0 then
           Except.error (FErr.UnexpectedKeywordValue "PCOUNT" kw.value)
         else Except.ok ()
       | _ => Except.error
           (FErr.UnexpectedKeywordValue "PCOUNT" kw.value)).bind fun _ =>
  (match header.get? 6 with
   | Option.none => Except.error (FErr.GenericError "not enough keywords")
   | Option.some kw =>
     if kw.name ≠ "GCOUNT" then
       Except.error (FErr.InvalidKeywordPlacement kw.name 6)
     else match kw.value with
       | KeywordValue.Int v =>
         if v ≠ 1 then
           Except.error (FErr.UnexpectedKeywordValue "GCOUNT" kw.value)
         else Except.ok ()
       | _ => Except.error
           (FErr.UnexpectedKeywordValue "GCOUNT" kw.value)).bind fun _ =>
  (match header.get? 7 with
   | Option.none => Except.error (FErr.GenericError "not enough keywords")
   | Option.some kw =>
     if kw.name ≠ "TFIELDS" then
       Except.error (FErr.InvalidKeywordPlacement kw.name 7)
     else match kw.value with
       | KeywordValue.Int v => Except.ok (usizeOfI64 v)
       | _ => Except.error
           (FErr.GenericError "Invalid NFIELDS (TFIELDS) value")).map fun nfields =>
  (nrowchars, nrows, nfields)

/-! ## Remaining data model: Bitpix, WCS, Image, BinTable, HDUData -/

/-- Decidable equality for `Except`, used to evaluate decoders on concrete
inputs. -/
def exceptDecEqAux {ε α : Type} [DecidableEq ε] [DecidableEq α] :
    (a b : Except ε α) → Decidable (a = b)
  | Except.error x, Except.error y =>
      match decEq x y with
      | isTrue h => isTrue (h ▸ rfl)
      | isFalse h => isFalse fun hh => h (Except.error.inj hh)
  | Except.error _, Except.ok _ => isFalse fun hh => Except.noConfusion hh
  | Except.ok _, Except.error _ => isFalse fun hh => Except.noConfusion hh
  | Except.ok x, Except.ok y =>
      match decEq x y with
      | isTrue h => isTrue (h ▸ rfl)
      | isFalse h => isFalse fun hh => h (Except.ok.inj hh)

instance {ε α : Type} [DecidableEq ε] [DecidableEq α] :
    DecidableEq (Except ε α) := exceptDecEqAux

/-- `Bitpix` (src/types.rs). -/
inductive Bitpix where
  | Int8
  | Int16
  | Int32
  | Int64
  | Float32
  | Float64
deriving DecidableEq, Repr

/-- `Bitpix::from_i64` (types.rs lines 39-52); the `std::io::Error` the
source boxes on an unknown value is modelled as a generic error. -/
def Bitpix.fromI64 (v : Int) : Except FErr Bitpix :=
  if v = 8 then Except.ok Bitpix.Int8
  else if v = 16 then Except.ok Bitpix.Int16
  else if v = 32 then Except.ok Bitpix.Int32
  else if v = 64 then Except.ok Bitpix.Int64
  else if v = -32 then Except.ok Bitpix.Float32
  else if v = -64 then Except.ok Bitpix.Float64
  else Except.error (FErr.GenericError "Invalid BITPIX value")

/-- `Bitpix::size` (types.rs lines 68-77). -/
def Bitpix.size : Bitpix → Nat
  | Bitpix.Int8 => 1
  | Bitpix.Int16 => 2
  | Bitpix.Int32 => 4
  | Bitpix.Int64 => 8
  | Bitpix.Float32 => 4
  | Bitpix.Float64 => 8

/-- `nalgebra::DMatrix<f64>` as used by the WCS assembly, modelled as rows
of rationals. -/
abbrev Matrix := List (List Rat)

/-- `DMatrix::identity(n, m)`. -/
def Matrix.identity (n m : Nat) : Matrix :=
  (List.range n).map fun i =>
    (List.range m).map fun j => if i = j then (1 : Rat) else 0

/-- Index assignment `mat[(i, j)] = v`; the WCS loops only assign in-range
entries of a freshly built identity, where `List.set` agrees. -/
def Matrix.setEntry (mat : Matrix) (i j : Nat) (v : Rat) : Matrix :=
  mat.set i ((mat.getD i []).set j v)

/-- `WCS` (src/wcs/mod.rs). -/
structure WCS where
  wcaxes : Option Nat
  ctype : Option (List String)
  crval : Option (List Rat)
  crpix : Option (List Rat)
  cdelt : Option (List Rat)
  cunit : Option (List String)
  cd : Option Matrix
  pc : Option Matrix
deriving DecidableEq, Repr

/-- `WCS::default()`. -/
def WCS.default : WCS :=
  WCS.mk Option.none Option.none Option.none Option.none Option.none
    Option.none Option.none Option.none

/-- `Image` (src/image/mod.rs). -/
structure Image where
  pixeltype : Bitpix
  axes : List Nat
  rawbytes : List Nat
  wcs : Option WCS
  gcount : Nat
  pcount : Nat
deriving DecidableEq, Repr

/-- `BinTable` (src/bintable/mod.rs). -/
structure BinTable where
  ncols : Nat
  nrows : Nat
  theap : Nat
  pcount : Nat
  rowbytes : Nat
  fieldname : List (Option String)
  scale : List (Option Rat)
  zero : List (Option Rat)
  tdisp : List TDisp
  units : List (Option String)
  tdmin : List (Option Rat)
  tdmax : List (Option Rat)
  tlmin : List (Option Rat)
  tlmax : List (Option Rat)
  tnull : List (Option Int)
  tform : List TForm
  raw : List Nat
deriving DecidableEq, Repr

/-- Cell values of a binary table.  The defining file
(`src/bintable/tvalue.rs`) is not among the provided sources; the
constructors and their payloads are reconstructed from their construction
sites in `BinTable::at` (src/bintable/mod.rs lines 160-351).  `f32`/`f64`
payloads are kept as the big-endian word read by `from_be_bytes` (a
bijection on bit patterns; no checked property interprets the float). -/
inductive BinTableValue where
  | Logical (b : Bool)
  | LogicalArr (v : List Bool)
  | Bit (b : Bool)
  | BitArr (v : List Bool)
  | UnsignedByte (b : Nat)
  | UnsignedByteArr (v : List Nat)
  | Int16 (x : Int)
  | Int16Arr (v : List Int)
  | Int32 (x : Int)
  | Int32Arr (v : List Int)
  | Int64 (x : Int)
  | Int64Arr (v : List Int)
  | Char (c : Char)
  | String (s : String)
  | Float32 (bits : Nat)
  | Float32Arr (v : List Nat)
  | Float64 (bits : Nat)
  | Float64Arr (v : List Nat)
  | Complex32 (re im : Nat)
  | Complex32Arr (v : List (Nat × Nat))
  | Complex64 (re im : Nat)
  | Complex64Arr (v : List (Nat × Nat))
deriving DecidableEq, Repr

/-- `HDUData` (src/types.rs): closed variant of HDU payloads. -/
inductive HDUData where
  | None
  | Table (t : Table)
  | Image (img : Image)
  | BinTable (bt : BinTable)
deriving DecidableEq, Repr

/-- `Table::from_bytes` (table/mod.rs lines 94-510): positional prefix,
column keyword loop, data-length guard, then the row decode; consumes
`nrows * nrowchars` bytes. -/
def Table.fromBytes (header : Header) (rawbytes : List Nat) :
    Except FErr (HDUData × Nat) :=
  (Table.prefixMeta header).bind fun meta =>
  let nrowchars := meta.1
  let nrows := meta.2.1
  let nfields := meta.2.2
  (Table.readCols header 0 nfields).bind fun cols =>
  if rawbytes.length < nrows * nrowchars then
    Except.error (FErr.GenericError "Table data is too short")
  else
    (Table.decodeRows cols rawbytes nrowchars 0 nrows).map fun data =>
    (HDUData.Table (Table.mk nfields (cols.map Table.Col.name)
        (cols.map Table.Col.scale) (cols.map Table.Col.zero)
        (cols.map Table.Col.tlmin) (cols.map Table.Col.tlmax)
        (cols.map Table.Col.tdmin) (cols.map Table.Col.tdmax)
        data (cols.map Table.Col.unit)),
      nrows * nrowchars)

/-! ## Claims C4, C6, C10 (ASCII table decoder) -/

/-- Keyword with an integer value and no comment. -/
def kwI (n : String) (v : Int) : Keyword :=
  Keyword.mk n (KeywordValue.Int v) Option.none

/-- Keyword with a string value and no comment. -/
def kwS (n v : String) : Keyword :=
  Keyword.mk n (KeywordValue.String v) Option.none

/-- Keyword with a float value and no comment. -/
def kwF (n : String) (v : Rat) : Keyword :=
  Keyword.mk n (KeywordValue.Float v) Option.none

/-- A minimal well-formed ASCII-table header: one integer column of width 2,
one row of 2 characters. -/
def c4Header : Header :=
  [kwS "XTENSION" "TABLE", kwI "BITPIX" 8, kwI "NAXIS" 2, kwI "NAXIS1" 2,
   kwI "NAXIS2" 1, kwI "PCOUNT" 0, kwI "GCOUNT" 1, kwI "TFIELDS" 1,
   kwI "TBCOL1" 1, kwS "TTYPE1" "VAL", kwS "TFORM1" "I2"]

/-- C4: the claim says every decoded row holds exactly TFIELDS cells, one
per column.  The code pushes every integer cell twice (table/mod.rs line
456 re-pushes after lines 447-455), so a 1-column table with cell text
"42" decodes to a row of 2 cells.  The spec itself marks single-push as
the intended contract, so this is a bug in the code. -/
theorem c4_code_bug :
    Table.fromBytes c4Header [52, 50]
      = Except.ok (HDUData.Table (Table.mk 1 ["VAL"] [Option.none]
          [Option.none] [Option.none] [Option.none] [Option.none]
          [Option.none] [[TValue.Int 42, TValue.Int 42]] [Option.none]), 2)
    ∧ ¬ [TValue.Int 42, TValue.Int 42].length = 1 := by
  refine ⟨by decide, by decide⟩

/-- Same table as `c4Header` but with `TZERO1 = 5.0` and no `TSCAL1`. -/
def c6Header : Header := c4Header ++ [kwF "TZERO1" 5]

/-- C6 counterexample: the claim says that when only `TZEROi` is present the
zero offset is still added (scale defaulting to 1).  The code applies the
scale/zero transform only when `TSCALi` is present (table/mod.rs lines
447-455): with `TZERO1 = 5.0` alone, the cell text "42" decodes to `42`,
not `42 * 1 + 5 = 47`. -/
theorem c6_counterexample :
    Table.fromBytes c6Header [52, 50]
      = Except.ok (HDUData.Table (Table.mk 1 ["VAL"] [Option.none]
          [Option.some 5] [Option.none] [Option.none] [Option.none]
          [Option.none] [[TValue.Int 42, TValue.Int 42]] [Option.none]), 2)
    ∧ ¬ TValue.Int 42 = TValue.Int (42 * 1 + 5) := by
  refine ⟨by decide, by decide⟩

/-- C6 amended: for a valid 1-based column offset, the scale/zero
transform is applied only when `TSCALi` is present, across every numeric
column form (`I`, `F`, `E`, `D`): with both `TSCALi` and `TZEROi` a float
cell is `raw*scale+zero` and an integer cell is that value truncated
toward zero; with `TSCALi` alone the zero term is dropped; when `TSCALi`
is absent the raw value is used unchanged even if `TZEROi` is present
(integer cells are additionally duplicated, see C4; `D`-form cells parse
after `D`→`E` normalization). -/
theorem c6_amended (w d : Nat) (sc z : Rat) (zo : Option Rat)
    (rowbytes : List Nat) (tbcol : Nat) (s0 : String) (q qd : Rat) (v : Int)
    (htb : 1 ≤ tbcol)
    (hslice : (rustSlice rowbytes (tbcol - 1) ((tbcol - 1) + w)).bind rustFromUtf8
        = Except.ok s0)
    (hq : parseF64 (rustTrim s0) = Except.ok q)
    (hqD : parseF64 (replaceDE (rustTrim s0)) = Except.ok qd)
    (hv : parseI64 (rustTrim s0) = Except.ok v) :
    (Table.decodeCell (Table.TForm.FloatDec w d) (Option.some sc) (Option.some z)
        Option.none rowbytes tbcol = Except.ok [TValue.Float (q * sc + z)]) ∧
    (Table.decodeCell (Table.TForm.FloatDec w d) (Option.some sc) Option.none
        Option.none rowbytes tbcol = Except.ok [TValue.Float (q * sc)]) ∧
    (Table.decodeCell (Table.TForm.FloatDec w d) Option.none zo
        Option.none rowbytes tbcol = Except.ok [TValue.Float q]) ∧
    (Table.decodeCell (Table.TForm.FloatE w d) (Option.some sc) (Option.some z)
        Option.none rowbytes tbcol = Except.ok [TValue.Float (q * sc + z)]) ∧
    (Table.decodeCell (Table.TForm.FloatE w d) (Option.some sc) Option.none
        Option.none rowbytes tbcol = Except.ok [TValue.Float (q * sc)]) ∧
    (Table.decodeCell (Table.TForm.FloatE w d) Option.none zo
        Option.none rowbytes tbcol = Except.ok [TValue.Float q]) ∧
    (Table.decodeCell (Table.TForm.FloatD w d) (Option.some sc) (Option.some z)
        Option.none rowbytes tbcol = Except.ok [TValue.Float (qd * sc + z)]) ∧
    (Table.decodeCell (Table.TForm.FloatD w d) (Option.some sc) Option.none
        Option.none rowbytes tbcol = Except.ok [TValue.Float (qd * sc)]) ∧
    (Table.decodeCell (Table.TForm.FloatD w d) Option.none zo
        Option.none rowbytes tbcol = Except.ok [TValue.Float qd]) ∧
    (Table.decodeCell (Table.TForm.Int w) (Option.some sc) (Option.some z)
        Option.none rowbytes tbcol
        = Except.ok [TValue.Int (ratTruncToI64 (q * sc + z)), TValue.Int v]) ∧
    (Table.decodeCell (Table.TForm.Int w) (Option.some sc) Option.none
        Option.none rowbytes tbcol
        = Except.ok [TValue.Int (ratTruncToI64 (q * sc)), TValue.Int v]) ∧
    (Table.decodeCell (Table.TForm.Int w) Option.none zo
        Option.none rowbytes tbcol = Except.ok [TValue.Int v, TValue.Int v]) := by
  have h0 : ¬ tbcol = 0 := by omega
  obtain ⟨bs, hbs, hs⟩ :
      ∃ bs, rustSlice rowbytes (tbcol - 1) ((tbcol - 1) + w) = Except.ok bs ∧
        rustFromUtf8 bs = Except.ok s0 := by
    cases h : rustSlice rowbytes (tbcol - 1) ((tbcol - 1) + w) with
    | error e => rw [h] at hslice; simp [Except.bind] at hslice
    | ok bs => rw [h] at hslice; exact ⟨bs, rfl, hslice⟩
  refine ⟨?_, ?_, ?_, ?_, ?_, ?_, ?_, ?_, ?_, ?_, ?_, ?_⟩ <;>
    simp [Table.decodeCell, Table.decodeData, h0, hbs, hs, hq, hqD, hv,
      Except.bind, Except.map]

/-- C6 amended, witness: cell text "3 " (width 2) at column offset 1 with
scale 2 and zero 5, instantiating every column form. -/
theorem c6_amended_witness :
    (Table.decodeCell (Table.TForm.FloatDec 2 0) (Option.some 2) (Option.some 5)
        Option.none [51, 32] 1 = Except.ok [TValue.Float (3 * 2 + 5)]) ∧
    (Table.decodeCell (Table.TForm.FloatDec 2 0) (Option.some 2) Option.none
        Option.none [51, 32] 1 = Except.ok [TValue.Float (3 * 2)]) ∧
    (Table.decodeCell (Table.TForm.FloatDec 2 0) Option.none (Option.some 5)
        Option.none [51, 32] 1 = Except.ok [TValue.Float 3]) ∧
    (Table.decodeCell (Table.TForm.FloatE 2 0) (Option.some 2) (Option.some 5)
        Option.none [51, 32] 1 = Except.ok [TValue.Float (3 * 2 + 5)]) ∧
    (Table.decodeCell (Table.TForm.FloatE 2 0) (Option.some 2) Option.none
        Option.none [51, 32] 1 = Except.ok [TValue.Float (3 * 2)]) ∧
    (Table.decodeCell (Table.TForm.FloatE 2 0) Option.none (Option.some 5)
        Option.none [51, 32] 1 = Except.ok [TValue.Float 3]) ∧
    (Table.decodeCell (Table.TForm.FloatD 2 0) (Option.some 2) (Option.some 5)
        Option.none [51, 32] 1 = Except.ok [TValue.Float (3 * 2 + 5)]) ∧
    (Table.decodeCell (Table.TForm.FloatD 2 0) (Option.some 2) Option.none
        Option.none [51, 32] 1 = Except.ok [TValue.Float (3 * 2)]) ∧
    (Table.decodeCell (Table.TForm.FloatD 2 0) Option.none (Option.some 5)
        Option.none [51, 32] 1 = Except.ok [TValue.Float 3]) ∧
    (Table.decodeCell (Table.TForm.Int 2) (Option.some 2) (Option.some 5)
        Option.none [51, 32] 1
        = Except.ok [TValue.Int (ratTruncToI64 (3 * 2 + 5)), TValue.Int 3]) ∧
    (Table.decodeCell (Table.TForm.Int 2) (Option.some 2) Option.none
        Option.none [51, 32] 1
        = Except.ok [TValue.Int (ratTruncToI64 (3 * 2)), TValue.Int 3]) ∧
    (Table.decodeCell (Table.TForm.Int 2) Option.none (Option.some 5)
        Option.none [51, 32] 1 = Except.ok [TValue.Int 3, TValue.Int 3]) :=
  c6_amended 2 0 2 5 (Option.some 5) [51, 32] 1 "3 " 3 3 3
    (by decide) (by decide) (by decide) (by decide) (by decide)

/-- C10: null-sentinel matching is prefix-based and pre-empts value
parsing: for a valid 1-based column offset, whenever the first
`len(TNULLi)` bytes of the field decode to the sentinel string, the cell
is `Null`, for every column form, scale and zero (table/mod.rs lines
427-434). -/
theorem c10_null_sentinel (tf : Table.TForm) (sc zo : Option Rat) (ns : String)
    (rowbytes : List Nat) (tbcol : Nat)
    (htb : 1 ≤ tbcol)
    (h : (rustSlice rowbytes (tbcol - 1) ((tbcol - 1) + ns.length)).bind rustFromUtf8
        = Except.ok ns) :
    Table.decodeCell tf sc zo (Option.some ns) rowbytes tbcol
      = Except.ok [TValue.Null] := by
  have h0 : ¬ tbcol = 0 := by omega
  obtain ⟨bs, hbs, hs⟩ :
      ∃ bs, rustSlice rowbytes (tbcol - 1) ((tbcol - 1) + ns.length) = Except.ok bs ∧
        rustFromUtf8 bs = Except.ok ns := by
    cases hc : rustSlice rowbytes (tbcol - 1) ((tbcol - 1) + ns.length) with
    | error e => rw [hc] at h; simp [Except.bind] at h
    | ok bs => rw [hc] at h; exact ⟨bs, rfl, h⟩
  simp [Table.decodeCell, h0, hbs, hs, Except.bind]

/-- C10 witness: sentinel "NA" against a width-4 integer field reading
"NAXY" — a prefix match on a field whose remaining width is not part of
the sentinel and whose text would not parse as a number. -/
theorem c10_witness :
    Table.decodeCell (Table.TForm.Int 4) Option.none Option.none
      (Option.some "NA") [78, 65, 88, 89] 1 = Except.ok [TValue.Null] :=
  c10_null_sentinel (Table.TForm.Int 4) Option.none Option.none
    "NA" [78, 65, 88, 89] 1 (by decide) (by decide)

/-! ## Binary table decoder (src/bintable/mod.rs, src/utils/mod.rs) -/

/-- Display of a keyword value (keyword.rs `impl Display`), used only as
error payload by `string_or_err`; the float rendering is the `Rat` one. -/
def kvDisplay : KeywordValue → String
  | KeywordValue.None => "None"
  | KeywordValue.Bool b => "Bool: " ++ toString b
  | KeywordValue.String s => "String: \"" ++ s ++ "\""
  | KeywordValue.Int i => "Int: " ++ toString i
  | KeywordValue.Float f => "Float: " ++ toString f
  | KeywordValue.ComplexInt r i =>
      "Complex Int: (" ++ toString r ++ ", " ++ toString i ++ ")"
  | KeywordValue.ComplexFloat r i =>
      "Complex Float: (" ++ toString r ++ ", " ++ toString i ++ ")"
  | KeywordValue.Undefined => "Undefined"

/-- `get_keyword_int_at_index` (utils/mod.rs lines 7-27). -/
def getKeywordIntAtIndex (header : Header) (index : Nat) (name : String) :
    Except FErr Int :=
  match header.get? index with
  | Option.none => Except.error (FErr.MissingKeyword name)
  | Option.some kw =>
    if kw.name ≠ name then
      Except.error (FErr.InvalidKeywordPlacement (kw.name ++ " not " ++ name) index)
    else match kw.value with
      | KeywordValue.Int v => Except.ok v
      | _ => Except.error (FErr.UnexpectedValueType kw.name)

/-- `check_int_keyword_at_index` (utils/mod.rs lines 29-56). -/
def checkIntKeywordAtIndex (header : Header) (index : Nat) (name : String)
    (value : Int) : Except FErr Unit :=
  match header.get? index with
  | Option.none => Except.error (FErr.MissingKeyword name)
  | Option.some kw =>
    if kw.name ≠ name then
      Except.error (FErr.InvalidKeywordPlacement (kw.name ++ " not " ++ name) index)
    else match kw.value with
      | KeywordValue.Int v =>
        if v ≠ value then
          Except.error (FErr.GenericError ("Invalid value for keyword " ++ name))
        else Except.ok ()
      | _ => Except.error (FErr.UnexpectedValueType kw.name)

/-- `string_or_err` (bintable/mod.rs lines 41-51). -/
def stringOrErr (header : Header) (kw : String) : Except FErr String :=
  match header.value kw with
  | Option.some (KeywordValue.String s) => Except.ok s
  | Option.some v => Except.error (FErr.UnexpectedValueType (kvDisplay v))
  | Option.none => Except.error (FErr.MissingKeyword kw)

/-- The positional keyword prefix of `BinTable::from_bytes` (bintable/mod.rs
lines 62-81): returns `(rowbytes, nrows, pcount, ncols, theap)` with the
`THEAP` default `rowbytes * nrows`. -/
def BinTable.prefixMeta (header : Header) :
    Except FErr (Nat × Nat × Nat × Nat × Nat) :=
  (checkIntKeywordAtIndex header 1 "BITPIX" 8).bind fun _ =>
  (checkIntKeywordAtIndex header 2 "NAXIS" 2).bind fun _ =>
  (getKeywordIntAtIndex header 3 "NAXIS1").bind fun rb =>
  (getKeywordIntAtIndex header 4 "NAXIS2").bind fun nr =>
  (getKeywordIntAtIndex header 5 "PCOUNT").bind fun pc =>
  (checkIntKeywordAtIndex header 6 "GCOUNT" 1).bind fun _ =>
  (getKeywordIntAtIndex header 7 "TFIELDS").map fun nf =>
  let rowbytes := usizeOfI64 rb
  let nrows := usizeOfI64 nr
  let theap := match header.valueInt "THEAP" with
    | Option.some t => usizeOfI64 t
    | Option.none => rowbytes * nrows
  (rowbytes, nrows, usizeOfI64 pc, usizeOfI64 nf, theap)

/-- Per-column keyword data pushed by the column loop of
`BinTable::from_bytes` (bintable/mod.rs lines 93-134), bundled per column
(the source keeps parallel vectors). -/
structure BinTable.Col where
  tform : TForm
  fieldname : Option String
  scale : Option Rat
  zero : Option Rat
  unit : Option String
  tlmin : Option Rat
  tlmax : Option Rat
  tdmin : Option Rat
  tdmax : Option Rat
  tnull : Option Int
deriving DecidableEq, Repr

/-- One iteration of the column loop for 0-based index `i`; only the
`TFORM` read is fallible. -/
def BinTable.readCol (header : Header) (i : Nat) : Except FErr BinTable.Col :=
  (stringOrErr header ("TFORM" ++ toString (i + 1))).bind fun s =>
  (TForm.fromString s).map fun tf =>
  BinTable.Col.mk tf
    (header.valueString ("TTYPE" ++ toString (i + 1)))
    (header.valueFloat ("TSCAL" ++ toString (i + 1)))
    (header.valueFloat ("TZERO" ++ toString (i + 1)))
    (header.valueString ("TUNIT" ++ toString (i + 1)))
    (header.valueFloat ("TLMIN" ++ toString (i + 1)))
    (header.valueFloat ("TLMAX" ++ toString (i + 1)))
    (header.valueFloat ("TDMIN" ++ toString (i + 1)))
    (header.valueFloat ("TDMAX" ++ toString (i + 1)))
    (header.valueInt ("TNULL" ++ toString (i + 1)))

/-- The column loop `for i in 0..bintable.ncols`. -/
def BinTable.readCols (header : Header) : Nat → Nat → Except FErr (List BinTable.Col)
  | _, 0 => Except.ok []
  | i, Nat.succ k =>
      (BinTable.readCol header i).bind fun c =>
      (BinTable.readCols header (i + 1) k).map fun rest => c :: rest

/-- `BinTable::from_bytes` (bintable/mod.rs lines 54-148): positional
prefix, column loop, data-size guard, then `raw` takes the first
`pcount + theap` bytes, which is also the consumed count.  (`tdisp` is
declared on the struct but never filled by this function.) -/
def BinTable.fromBytes (header : Header) (rawbytes : List Nat) :
    Except FErr (HDUData × Nat) :=
  (BinTable.prefixMeta header).bind fun m =>
  let rowbytes := m.1
  let nrows := m.2.1
  let pcount := m.2.2.1
  let ncols := m.2.2.2.1
  let theap := m.2.2.2.2
  (BinTable.readCols header 0 ncols).bind fun cols =>
  let nbytes := pcount + theap
  if rawbytes.length < nbytes then
    Except.error (FErr.InvalidDataSize nbytes rawbytes.length)
  else
    Except.ok (HDUData.BinTable (BinTable.mk ncols nrows theap pcount rowbytes
        (cols.map BinTable.Col.fieldname) (cols.map BinTable.Col.scale)
        (cols.map BinTable.Col.zero) [] (cols.map BinTable.Col.unit)
        (cols.map BinTable.Col.tdmin) (cols.map BinTable.Col.tdmax)
        (cols.map BinTable.Col.tlmin) (cols.map BinTable.Col.tlmax)
        (cols.map BinTable.Col.tnull) (cols.map BinTable.Col.tform)
        (rawbytes.take nbytes)),
      nbytes)

/-- Big-endian byte assembly: the unsigned word of `from_be_bytes`. -/
def beNat (bs : List Nat) : Nat := bs.foldl (fun a b => a * 256 + b) 0

/-- Two's-complement reading of a `w`-bit big-endian word, as performed by
`iN::from_be_bytes`. -/
def toSigned (w n : Nat) : Int :=
  if n < 2 ^ (w - 1) then (n : Int) else (n : Int) - 2 ^ w

/-- The inner `for j in 0..8` unpacking of one packed-bit byte,
LSB first: `(byte & (1 << j)) != 0` (bintable/mod.rs lines 180-182). -/
def bitsOfByte (b : Nat) : List Bool := (List.range 8).map fun j => b.testBit j

/-- A `for i in 0..repeats` loop of single-byte indexed reads
`self.raw[offset + i]`. -/
def readSingles (raw : List Nat) (off : Nat) : Nat → Nat → Except FErr (List Nat)
  | _, 0 => Except.ok []
  | i, Nat.succ k =>
      (idx raw (off + i)).bind fun b =>
      (readSingles raw off (i + 1) k).map fun rest => b :: rest

/-- A `for i in 0..repeats` loop of strided slice reads
`self.raw[offset + i*stride .. offset + i*stride + width]`. -/
def readChunks (raw : List Nat) (off stride width : Nat) :
    Nat → Nat → Except FErr (List (List Nat))
  | _, 0 => Except.ok []
  | i, Nat.succ k =>
      (rustSlice raw (off + i * stride) (off + i * stride + width)).bind fun c =>
      (readChunks raw off stride width (i + 1) k).map fun rest => c :: rest

/-- The column-offset fold of `BinTable::at` (bintable/mod.rs line 157):
`(0..col).fold(0, |acc, i| acc + self.tform[i].bytes())`, with the `Vec`
indexing panic made explicit. -/
def BinTable.sumColBytes (tfs : List TForm) : Nat → Nat → Except FErr Nat
  | _, 0 => Except.ok 0
  | i, Nat.succ k =>
      (idx tfs i).bind fun t =>
      (BinTable.sumColBytes tfs (i + 1) k).map fun rest => t.bytes + rest

/-- `BinTable::at` (bintable/mod.rs lines 150-353): bounds checks first,
then the per-element-type big-endian cell decode at
`offset = rowbytes*row + sum of preceding column widths`. -/
def BinTable.at (bt : BinTable) (row col : Nat) : Except FErr BinTableValue :=
  if row ≥ bt.nrows then Except.error (FErr.InvalidRow row bt.nrows)
  else if col ≥ bt.ncols then Except.error (FErr.InvalidColumn col bt.ncols)
  else
    (BinTable.sumColBytes bt.tform 0 col).bind fun colOff =>
    let offset := bt.rowbytes * row + colOff
    (idx bt.tform col).bind fun tform =>
    match tform.dtype with
    | TFormType.Logical =>
        if tform.repeats = 1 then
          (idx bt.raw offset).map fun b => BinTableValue.Logical (b ≠ 0)
        else
          (readSingles bt.raw offset 0 tform.repeats).map fun v =>
            BinTableValue.LogicalArr (v.map (fun b => b ≠ 0))
    | TFormType.Bit =>
        if tform.repeats = 1 then
          (idx bt.raw offset).map fun b => BinTableValue.Bit (b ≠ 0)
        else
          (readSingles bt.raw offset 0 ((tform.repeats + 7) / 8)).map fun bytes =>
            BinTableValue.BitArr (bytes.map bitsOfByte).flatten
    | TFormType.UnsignedByte =>
        if tform.repeats = 1 then
          (idx bt.raw offset).map BinTableValue.UnsignedByte
        else
          (readSingles bt.raw offset 0 tform.repeats).map BinTableValue.UnsignedByteArr
    | TFormType.Int16 =>
        if tform.repeats = 1 then
          (rustSlice bt.raw offset (offset + 2)).map fun c =>
            BinTableValue.Int16 (toSigned 16 (beNat c))
        else
          (readChunks bt.raw offset 2 2 0 tform.repeats).map fun cs =>
            BinTableValue.Int16Arr (cs.map (fun c => toSigned 16 (beNat c)))
    | TFormType.Int32 =>
        if tform.repeats = 1 then
          (rustSlice bt.raw offset (offset + 4)).map fun c =>
            BinTableValue.Int32 (toSigned 32 (beNat c))
        else
          (readChunks bt.raw offset 4 4 0 tform.repeats).map fun cs =>
            BinTableValue.Int32Arr (cs.map (fun c => toSigned 32 (beNat c)))
    | TFormType.Int64 =>
        if tform.repeats = 1 then
          (rustSlice bt.raw offset (offset + 8)).map fun c =>
            BinTableValue.Int64 (toSigned 64 (beNat c))
        else
          (readChunks bt.raw offset 8 8 0 tform.repeats).map fun cs =>
            BinTableValue.Int64Arr (cs.map (fun c => toSigned 64 (beNat c)))
    | TFormType.Char =>
        if tform.repeats = 1 then
          (idx bt.raw offset).map fun b => BinTableValue.Char (Char.ofNat b)
        else
          (readSingles bt.raw offset 0 tform.repeats).map fun v =>
            BinTableValue.String (String.mk (v.map Char.ofNat))
    | TFormType.Float32 =>
        if tform.repeats = 1 then
          (rustSlice bt.raw offset (offset + 4)).map fun c =>
            BinTableValue.Float32 (beNat c)
        else
          (readChunks bt.raw offset 4 4 0 tform.repeats).map fun cs =>
            BinTableValue.Float32Arr (cs.map beNat)
    | TFormType.Float64 =>
        if tform.repeats = 1 then
          (rustSlice bt.raw offset (offset + 8)).map fun c =>
            BinTableValue.Float64 (beNat c)
        else
          (readChunks bt.raw offset 8 8 0 tform.repeats).map fun cs =>
            BinTableValue.Float64Arr (cs.map beNat)
    | TFormType.Complex32 =>
        if tform.repeats = 1 then
          (rustSlice bt.raw offset (offset + 4)).bind fun re =>
          (rustSlice bt.raw (offset + 4) (offset + 8)).map fun im =>
            BinTableValue.Complex32 (beNat re) (beNat im)
        else
          (readChunks bt.raw offset 8 8 0 tform.repeats).map fun cs =>
            BinTableValue.Complex32Arr
              (cs.map (fun c => (beNat (c.take 4), beNat (c.drop 4))))
    | TFormType.Complex64 =>
        if tform.repeats = 1 then
          (rustSlice bt.raw offset (offset + 8)).bind fun re =>
          (rustSlice bt.raw (offset + 8) (offset + 16)).map fun im =>
            BinTableValue.Complex64 (beNat re) (beNat im)
        else
          (readChunks bt.raw offset 16 16 0 tform.repeats).map fun cs =>
            BinTableValue.Complex64Arr
              (cs.map (fun c => (beNat (c.take 8), beNat (c.drop 8))))
    | TFormType.ArrayD32 _ _ =>
        Except.error (FErr.GenericError "Array Types Not Yet Implemented")
    | TFormType.ArrayD64 _ _ =>
        Except.error (FErr.GenericError "Array Types Not Yet Implemented")

/-! ## Claims C8 and C9 (binary table cell access) -/

/-- C8: `BinTable::at` checks the row bound first and the column bound
second, before touching any data: an out-of-range row gives
`InvalidRow(row, nrows)`, and an in-range row with an out-of-range column
gives `InvalidColumn(col, ncols)` — an error return, never a panic. -/
theorem c8_bounds_checked (bt : BinTable) (row col : Nat) :
    (row ≥ bt.nrows → bt.at row col = Except.error (FErr.InvalidRow row bt.nrows)) ∧
    (row < bt.nrows → col ≥ bt.ncols →
      bt.at row col = Except.error (FErr.InvalidColumn col bt.ncols)) := by
  constructor
  · intro h
    unfold BinTable.at
    rw [if_pos h]
  · intro h1 h2
    unfold BinTable.at
    rw [if_neg (by omega), if_pos h2]

/-- A concrete one-column, one-row binary table. -/
def c8Table : BinTable :=
  BinTable.mk 1 1 0 0 1 [] [] [] [] [] [] [] [] [] []
    [TForm.mk TFormType.Logical 1] [1]

/-- C8 witness: out-of-range accesses on a concrete table. -/
theorem c8_witness :
    c8Table.at 2 0 = Except.error (FErr.InvalidRow 2 1) ∧
    c8Table.at 0 3 = Except.error (FErr.InvalidColumn 3 1) :=
  ⟨(c8_bounds_checked c8Table 2 0).1 (by decide),
   (c8_bounds_checked c8Table 0 3).2 (by decide) (by decide)⟩

theorem readSingles_ok (raw : List Nat) (off : Nat) :
    ∀ k i, off + i + k ≤ raw.length →
      ∃ xs, readSingles raw off i k = Except.ok xs ∧ xs.length = k := by
  intro k
  induction k with
  | zero => intro i _; exact ⟨[], rfl, rfl⟩
  | succ n ih =>
      intro i h
      obtain ⟨xs, hxs, hlen⟩ := ih (i + 1) (by omega)
      have hb : ∃ b, idx raw (off + i) = Except.ok b := by
        unfold idx
        have : off + i < raw.length := by omega
        cases hg : raw.get? (off + i) with
        | none => rw [List.get?_eq_none] at hg; omega
        | some b => exact ⟨b, rfl⟩
      obtain ⟨b, hb⟩ := hb
      refine ⟨b :: xs, ?_, by simp [hlen]⟩
      simp [readSingles, hb, hxs, Except.bind, Except.map]

theorem bits_flatten_length (bytes : List Nat) :
    ((bytes.map bitsOfByte).flatten).length = 8 * bytes.length := by
  induction bytes with
  | nil => rfl
  | cons b t ih =>
      simp [bitsOfByte, ih]
      omega

/-- C9: for a Bit column with repeat count `r > 1`, `BinTable::at` unpacks
every bit of each of the `ceil(r/8)` bytes, so the returned `BitArr` has
length `8 * ceil(r/8)`; when `r` is not a multiple of 8 this is not `r`
(up to 7 trailing padding bits are included). -/
theorem c9_bitarr_length (bt : BinTable) (row col r coloff : Nat)
    (hrow : row < bt.nrows) (hcol : col < bt.ncols)
    (htf : bt.tform.get? col = Option.some (TForm.mk TFormType.Bit r))
    (hr : 1 < r)
    (hoff : BinTable.sumColBytes bt.tform 0 col = Except.ok coloff)
    (hlen : bt.rowbytes * row + coloff + (r + 7) / 8 ≤ bt.raw.length) :
    ∃ bits, bt.at row col = Except.ok (BinTableValue.BitArr bits) ∧
      bits.length = 8 * ((r + 7) / 8) ∧ (r % 8 ≠ 0 → bits.length ≠ r) := by
  obtain ⟨xs, hxs, hxlen⟩ :=
    readSingles_ok bt.raw (bt.rowbytes * row + coloff) ((r + 7) / 8) 0
      (by omega)
  refine ⟨(xs.map bitsOfByte).flatten, ?_, ?_, ?_⟩
  · unfold BinTable.at
    rw [if_neg (by omega), if_neg (by omega)]
    simp only [hoff, Except.bind, idx, htf]
    rw [if_neg (by omega)]
    simp [hxs, Except.map]
  · rw [bits_flatten_length, hxlen]
  · intro h8
    rw [bits_flatten_length, hxlen]
    omega

/-- A concrete binary table with a single Bit column of repeat count 10. -/
def c9Table : BinTable :=
  BinTable.mk 1 1 0 0 2 [] [] [] [] [] [] [] [] [] []
    [TForm.mk TFormType.Bit 10] [171, 205]

/-- C9 witness: repeat count 10 unpacks to 16 bits, not 10. -/
theorem c9_witness :
    ∃ bits, c9Table.at 0 0 = Except.ok (BinTableValue.BitArr bits) ∧
      bits.length = 8 * ((10 + 7) / 8) ∧ (10 % 8 ≠ 0 → bits.length ≠ 10) :=
  c9_bitarr_length c9Table 0 0 10 0 (by decide) (by decide) (by decide)
    (by decide) (by decide) (by decide)

/-! ## Keyword-record parser (src/header/keyword.rs) -/

/-- Valid bytes of the 8-byte name field (keyword.rs lines 65-76):
uppercase ASCII, space, digit, underscore, hyphen. -/
def isValidNameByte (b : Nat) : Bool :=
  (65 ≤ b ∧ b ≤ 90) ∨ b = 32 ∨ (48 ≤ b ∧ b ≤ 57) ∨ b = 95 ∨ b = 45

/-- `InvalidKeywordRecord(String::from_utf8(kwstr.to_vec())?)`: the payload
conversion itself propagates a UTF-8 failure first. -/
def invalidRecordErr (kwstr : List Nat) : FErr :=
  match rustFromUtf8 kwstr with
  | Except.ok s => FErr.InvalidKeywordRecord s
  | Except.error e => e

/-- The single-quote character (byte 39), written by name to keep the
embedding free of quote-escape literals. -/
def squote : Char := Char.ofNat 39

/-- The closing-quote scan of the string-value branch (keyword.rs lines
102-114): `''` is an escaped quote (skip 2); a bare quote ends the scan.
`fuel` bounds the while loop; the cursor advances every step, so
`cs.length` steps always suffice. -/
def quoteEnd (cs : List Char) : Nat → Nat → Nat
  | e, 0 => e
  | e, Nat.succ fuel =>
    if e < cs.length then
      if cs.getD e ' ' = squote then
        if e + 1 < cs.length ∧ cs.getD (e + 1) ' ' = squote then
          quoteEnd cs (e + 2) fuel
        else e
      else quoteEnd cs (e + 1) fuel
    else e

/-- The repeated comment capture: first `/` in `remainder`, text after it
(trimmed) when anything follows. -/
def commentFrom (remainder : List Char) : Option String :=
  match List.findIdx? (fun c => c = '/') remainder with
  | Option.some pos =>
      if pos < remainder.length - 1 then
        Option.some (rustTrim (String.mk (remainder.drop (pos + 1))))
      else Option.none
  | Option.none => Option.none

/-- The `(real, imag)` span extraction shared by the two complex branches
(keyword.rs lines 198-220 and 232-254): find `(` and `)`, require the
order, split the inside on `,` into exactly two trimmed parts. -/
def complexSpan (complexstr : List Char) (kwstr : List Nat) :
    Except FErr (String × String) :=
  match List.findIdx? (fun c => c = '(') complexstr,
        List.findIdx? (fun c => c = ')') complexstr with
  | Option.some a, Option.some b =>
      if b < a then Except.error (invalidRecordErr kwstr)
      else
        match (String.mk ((complexstr.drop (a + 1)).take (b - (a + 1)))).splitOn "," with
        | [p1, p2] => Except.ok (rustTrim p1, rustTrim p2)
        | _ => Except.error (invalidRecordErr kwstr)
  | _, _ => Except.error (invalidRecordErr kwstr)

/-- The value-field classifier and parser of `Keyword::new` (keyword.rs
lines 96-271), applied to `kvchars = kwstr[10..]` once a `= ` marker was
seen.  `kwstr` is carried for the byte-29 boolean test and error payloads. -/
def parseKeywordValue (name : String) (kwstr : List Nat) (cs : List Char) :
    Except FErr Keyword :=
  if cs.headD ' ' = squote then
    let e := quoteEnd cs 1 cs.length
    let value := rustTrim (String.mk ((cs.drop 1).take (e - 1)))
    Except.ok (Keyword.mk name (KeywordValue.String value) (commentFrom (cs.drop e)))
  else if kwstr.getD 29 0 = 84 ∨ kwstr.getD 29 0 = 70 then
    Except.ok (Keyword.mk name (KeywordValue.Bool (kwstr.getD 29 0 = 84))
      (commentFrom (cs.drop 20)))
  else
    let realstr := rustTrimStart (String.mk (cs.take 20))
    let complexstr0 := rustTrimStart (String.mk (cs.drop 20))
    let complexstr := match List.findIdx? (fun c => c = '/') complexstr0.data with
      | Option.some pos => String.mk (complexstr0.data.take pos)
      | Option.none => complexstr0
    let isInt := realstr.data.all fun c => c.isDigit ∨ c = '+' ∨ c = '-'
    let isFloat := realstr.data.all fun c =>
      c.isDigit ∨ c = '.' ∨ c = '+' ∨ c = '-' ∨ c = 'E' ∨ c = 'D'
    let isComplexFloat := complexstr.data.all fun c =>
      c.isDigit ∨ c = '.' ∨ c = '+' ∨ c = '-' ∨ c = 'E' ∨ c = 'D' ∨
        c = ' ' ∨ c = ',' ∨ c = '(' ∨ c = ')'
    let isComplexInt := complexstr.data.all fun c =>
      c.isDigit ∨ c = '+' ∨ c = '-' ∨ c = ' ' ∨ c = ',' ∨ c = '(' ∨ c = ')'
    if isInt then
      (parseI64 realstr).map fun v =>
        Keyword.mk name (KeywordValue.Int v) (commentFrom (cs.drop 20))
    else if isFloat then
      (parseF64 realstr).map fun v =>
        Keyword.mk name (KeywordValue.Float v) (commentFrom (cs.drop 20))
    else if isComplexInt then
      (complexSpan complexstr.data kwstr).bind fun p =>
      (parseI64 p.1).bind fun re =>
      (parseI64 p.2).map fun im =>
        Keyword.mk name (KeywordValue.ComplexInt re im) (commentFrom (cs.drop 20))
    else if isComplexFloat then
      (complexSpan complexstr.data kwstr).bind fun p =>
      (parseF64 p.1).bind fun re =>
      (parseF64 p.2).map fun im =>
        Keyword.mk name (KeywordValue.ComplexFloat re im) (commentFrom (cs.drop 20))
    else Except.error (invalidRecordErr kwstr)

/-- `Keyword::new` (keyword.rs lines 58-274): name validation on bytes
0-7, interior-space check on the trimmed name, then the value parse when
byte 8 is `=` (61) and byte 9 is a space (32). -/
def Keyword.new (kwstr : List Nat) : Except FErr Keyword :=
  if kwstr.length ≠ 80 then Except.error (FErr.BadKeywordLength kwstr.length)
  else
    let kwbytes := kwstr.take 8
    if ¬ kwbytes.all isValidNameByte then
      match rustFromUtf8 kwbytes with
      | Except.ok s => Except.error (FErr.InvalidCharacterInKeyword s)
      | Except.error e => Except.error e
    else
      (rustFromUtf8 kwbytes).bind fun kwname0 =>
      let name := rustTrim kwname0
      if name.data.contains ' ' then
        Except.error (FErr.InvalidCharacterInKeyword name)
      else if kwstr.getD 8 0 = 61 ∧ kwstr.getD 9 0 = 32 then
        (rustFromUtf8 (kwstr.drop 10)).bind fun kvchars =>
        parseKeywordValue name kwstr kvchars.data
      else Except.ok (Keyword.mk name KeywordValue.None Option.none)

/-! ## Header block scanner and HDU dispatcher (src/header/fitsblock.rs,
src/hdu/mod.rs) -/

/-- The 36-record loop of `FITSBlock::from_bytes`. -/
def blockRecords (bytes : List Nat) : Nat → Nat → Except FErr (List Keyword)
  | _, 0 => Except.ok []
  | i, Nat.succ k =>
      (rustSlice bytes (i * 80) ((i + 1) * 80)).bind fun r80 =>
      (Keyword.new r80).bind fun kw =>
      (blockRecords bytes (i + 1) k).map fun rest => kw :: rest

/-- `FITSBlock::from_bytes` (fitsblock.rs lines 8-23): exactly 2880 bytes
or `InvalidHeader`, then 36 records of 80 bytes. -/
def FITSBlock.fromBytes (bytes : List Nat) : Except FErr (List Keyword) :=
  if bytes.length ≠ 2880 then Except.error FErr.InvalidHeader
  else blockRecords bytes 0 36

/-- The inner keyword loop of `HDU::from_bytes` (hdu/mod.rs lines 54-62):
push keywords with nonempty names; stop after the first `END`.  Returns
the grown header and whether `END` was found. -/
def pushKeywords (acc : List Keyword) : List Keyword → List Keyword × Bool
  | [] => (acc, false)
  | kw :: rest =>
      let acc2 := if kw.name ≠ "" then acc ++ [kw] else acc
      if kw.name = "END" then (acc2, true)
      else pushKeywords acc2 rest

/-- The block loop of `HDU::from_bytes` (hdu/mod.rs lines 52-67).  Each
iteration slices `rawbytes[nheaders*2880..(nheaders+1)*2880]`, which
panics when fewer than 2880 bytes remain — that panic is the `rustSlice`
error.  The loop advances `nheaders` every iteration, so
`rawbytes.len/2880 + 1` iterations always reach either `END` or the
panicking slice; the fuel-exhausted arm is unreachable at that fuel. -/
def scanHeader (raw : List Nat) : Nat → List Keyword → Nat →
    Except FErr (List Keyword × Nat)
  | _, _, 0 => Except.error FErr.rustPanic
  | nheaders, acc, Nat.succ fuel =>
      (rustSlice raw (nheaders * 2880) ((nheaders + 1) * 2880)).bind fun block =>
      (FITSBlock.fromBytes block).bind fun kws =>
      let p := pushKeywords acc kws
      if p.2 then Except.ok (p.1, nheaders + 1)
      else scanHeader raw (nheaders + 1) p.1 fuel

/-- The dispatcher padding (hdu/mod.rs lines 133-135): advance to the next
multiple of 2880 when not already on one. -/
def padTo2880 (offset : Nat) : Nat :=
  if offset % 2880 ≠ 0 then offset + (2880 - offset % 2880) else offset

theorem padTo2880_spec (n : Nat) : padTo2880 n % 2880 = 0 ∧ n ≤ padTo2880 n := by
  unfold padTo2880
  split <;> omega

/-! ## WCS assembly (src/wcs/mod.rs) -/

/-- A `while let Some(String)` keyword run `BASE1, BASE2, ...` (wcs/mod.rs
lines 36-54).  Successive hits need distinct present names, so
`header.length + 1` fuel is never exhausted. -/
def collectStr (header : Header) (base : String) : Nat → Nat → List String
  | _, 0 => []
  | n, Nat.succ fuel =>
      match header.value (base ++ toString (n + 1)) with
      | Option.some (KeywordValue.String s) => s :: collectStr header base (n + 1) fuel
      | _ => []

/-- The float analogue (wcs/mod.rs lines 55-84). -/
def collectFloat (header : Header) (base : String) : Nat → Nat → List Rat
  | _, 0 => []
  | n, Nat.succ fuel =>
      match header.value (base ++ toString (n + 1)) with
      | Option.some (KeywordValue.Float s) => s :: collectFloat header base (n + 1) fuel
      | _ => []

/-- The `CDi_j`/`PCi_j` matrix fill (wcs/mod.rs lines 90-113): on the first
hit the accumulator becomes an identity, then hits assign entries. -/
def fillMatrix (header : Header) (base : String) (ni nj : Nat) : Option Matrix :=
  (List.range ni).foldl (fun acc i =>
    (List.range nj).foldl (fun acc2 j =>
      match header.value (base ++ toString (i + 1) ++ "_" ++ toString (j + 1)) with
      | Option.some (KeywordValue.Float s) =>
          let m := match acc2 with
            | Option.some m => m
            | Option.none => Matrix.identity ni nj
          Option.some (Matrix.setEntry m i j s)
      | _ => acc2) acc) Option.none

/-- `WCS::from_header` (wcs/mod.rs lines 21-127). -/
def WCS.fromHeader (header : Header) : Except FErr (Option WCS) :=
  (match header.value "WCSAXES" with
   | Option.some (KeywordValue.Int ax) => Except.ok (Option.some (usizeOfI64 ax))
   | Option.some _ => Except.error (FErr.UnexpectedValueType "WCSAXES")
   | Option.none => Except.ok Option.none).map fun wcaxes =>
  let fuel := header.length + 1
  let cunit := collectStr header "CUNIT" 0 fuel
  let ctype := collectStr header "CTYPE" 0 fuel
  let cdelt := collectFloat header "CDELT" 0 fuel
  let crval := collectFloat header "CRVAL" 0 fuel
  let crpix := collectFloat header "CRPIX" 0 fuel
  let cunitO := if cunit = [] then Option.none else Option.some cunit
  let ctypeO := if ctype = [] then Option.none else Option.some ctype
  let cdeltO := if cdelt = [] then Option.none else Option.some cdelt
  let crvalO := if crval = [] then Option.none else Option.some crval
  let crpixO := if crpix = [] then Option.none else Option.some crpix
  let cdpc : Option Matrix × Option Matrix :=
    match crpixO with
    | Option.some v => (fillMatrix header "CD" v.length v.length,
                        fillMatrix header "PC" v.length v.length)
    | Option.none => (Option.none, Option.none)
  if cdpc.1 = Option.none ∧ cdpc.2 = Option.none ∧ cdeltO = Option.none ∧
     crpixO = Option.none ∧ crvalO = Option.none ∧ ctypeO = Option.none ∧
     cunitO = Option.none then
    Option.none
  else
    Option.some (WCS.mk wcaxes ctypeO crvalO crpixO cdeltO cunitO cdpc.1 cdpc.2)

/-! ## Image decoder (src/image/mod.rs) -/

/-- The `NAXIS1..NAXISn` positional loop of `Image::from_bytes` (image/mod.rs
lines 87-106), 0-based loop index. -/
def Image.readAxes (header : Header) : Nat → Nat → Except FErr (List Nat)
  | _, 0 => Except.ok []
  | i, Nat.succ k =>
      match header.get? (3 + i) with
      | Option.none => Except.error (FErr.GenericError "not enough keywords")
      | Option.some kw =>
        if kw.name ≠ "NAXIS" ++ toString (i + 1) then
          Except.error (FErr.InvalidKeywordPlacement kw.name (3 + i))
        else match kw.value with
          | KeywordValue.Int v =>
              (Image.readAxes header (i + 1) k).map fun rest => usizeOfI64 v :: rest
          | _ => Except.error (FErr.GenericError "Invalid NAXIS value")

/-- The BITPIX / NAXIS / axes prefix of `Image::from_bytes` (image/mod.rs
lines 52-106): returns the pixel type, the `u16` axis count and the axes. -/
def Image.meta (header : Header) : Except FErr (Bitpix × Nat × List Nat) :=
  (match header.get? 1 with
   | Option.none => Except.error (FErr.GenericError "not enough keywords")
   | Option.some kw =>
     if kw.name ≠ "BITPIX" then
       Except.error (FErr.InvalidKeywordPlacement kw.name 1)
     else match kw.value with
       | KeywordValue.Int v => Bitpix.fromI64 v
       | _ => Except.error (FErr.GenericError "Invalid BITPIX value")).bind fun bitpix =>
  (match header.get? 2 with
   | Option.none => Except.error (FErr.GenericError "not enough keywords")
   | Option.some kw =>
     if kw.name ≠ "NAXIS" then
       Except.error (FErr.InvalidKeywordPlacement kw.name 2)
     else match kw.value with
       | KeywordValue.Int v => Except.ok (u16OfI64 v)
       | _ => Except.error (FErr.GenericError "Invalid NAXIS value")).bind fun naxis =>
  (Image.readAxes header 0 naxis).map fun axes => (bitpix, naxis, axes)

/-- The PCOUNT/GCOUNT pair after the axes (image/mod.rs lines 112-147). -/
def Image.readPG (header : Header) (naxis : Nat) : Except FErr (Nat × Nat) :=
  let kwidx := 4 + naxis
  (match header.get? kwidx with
   | Option.none => Except.error (FErr.GenericError "not enough keywords")
   | Option.some kw =>
     if kw.name ≠ "PCOUNT" then
       Except.error (FErr.InvalidKeywordPlacement kw.name kwidx)
     else match kw.value with
       | KeywordValue.Int v => Except.ok (usizeOfI64 v)
       | _ => Except.error (FErr.GenericError "Invalid PCOUNT value")).bind fun pcount =>
  (match header.get? (kwidx + 1) with
   | Option.none => Except.error (FErr.GenericError "not enough keywords")
   | Option.some kw =>
     if kw.name ≠ "GCOUNT" then
       Except.error (FErr.InvalidKeywordPlacement kw.name (kwidx + 1))
     else match kw.value with
       | KeywordValue.Int v => Except.ok (usizeOfI64 v)
       | _ => Except.error (FErr.GenericError "Invalid GCOUNT value")).map fun gcount =>
  (pcount, gcount)

/-- The PCOUNT/GCOUNT step guarded by the `IMAGE`-extension test on
`header[0].value` (image/mod.rs lines 107-147); defaults `(0, 1)`. -/
def Image.readPGIf (header : Header) (naxis : Nat) : Except FErr (Nat × Nat) :=
  match header.get? 0 with
  | Option.none => Except.error FErr.rustPanic
  | Option.some kw0 =>
    if kw0.value = KeywordValue.String "IMAGE" then Image.readPG header naxis
    else Except.ok (0, 1)

/-- `chunks_exact(k)`, `uN/fN::from_be_bytes`, `bytemuck::cast_slice` on a
little-endian host: each `k`-byte chunk is reversed (a trailing partial
chunk is dropped, which never arises since the length is `npixels * k`).
`fuel` is the list length; the chunk step strictly shrinks the list. -/
def chunkRevGo (k : Nat) : Nat → List Nat → List Nat
  | 0, _ => []
  | Nat.succ fuel, bs =>
      if bs.length < k ∨ k = 0 then []
      else (bs.take k).reverse ++ chunkRevGo k fuel (bs.drop k)

/-- Per-element big-endian to native layout conversion. -/
def chunkRev (k : Nat) (bs : List Nat) : List Nat := chunkRevGo k bs.length bs

/-- `Image::from_bytes` (image/mod.rs lines 46-218): positional prefix,
optional PCOUNT/GCOUNT, pixel count `axes.prod` (the empty product is 1),
byte count `npixels * bitpix.size`, endian conversion, WCS assembly;
consumes `nbytes` and returns `HDUData::None` only when `nbytes = 0`. -/
def Image.fromBytes (header : Header) (rawbytes : List Nat) :
    Except FErr (HDUData × Nat) :=
  (Image.meta header).bind fun m =>
  let bitpix := m.1
  let naxis := m.2.1
  let axes := m.2.2
  (Image.readPGIf header naxis).bind fun pg =>
  let npixels := axes.prod
  let nbytes := npixels * bitpix.size
  if nbytes > 0 then
    (rustSlice rawbytes 0 nbytes).bind fun raw0 =>
    let imgraw := match bitpix with
      | Bitpix.Int8 => raw0
      | Bitpix.Int16 => chunkRev 2 raw0
      | Bitpix.Int32 => chunkRev 4 raw0
      | Bitpix.Int64 => chunkRev 8 raw0
      | Bitpix.Float32 => chunkRev 4 raw0
      | Bitpix.Float64 => chunkRev 8 raw0
    (WCS.fromHeader header).map fun wcs =>
    (HDUData.Image (Image.mk bitpix axes imgraw wcs pg.2 pg.1), nbytes)
  else Except.ok (HDUData.None, nbytes)

/-- One header-data unit (src/hdu/mod.rs). -/
structure HDU where
  header : List Keyword
  data : HDUData
deriving DecidableEq, Repr

/-- `HDU::from_bytes` (hdu/mod.rs lines 47-137): scan header blocks to the
first `END`, dispatch on the first keyword, then pad the consumed offset
to a 2880 multiple (the empty-header early return skips the padding). -/
def HDU.fromBytes (rawbytes : List Nat) : Except FErr (HDU × Nat) :=
  (scanHeader rawbytes 0 [] (rawbytes.length / 2880 + 1)).bind fun p =>
  let hdr := p.1
  let offset := p.2 * 2880
  match hdr with
  | [] => Except.ok (HDU.mk hdr HDUData.None, offset)
  | kw0 :: _ =>
    (if kw0.name = "SIMPLE" then
      (Image.fromBytes hdr (rawbytes.drop offset)).map fun r => (r.1, offset + r.2)
     else if kw0.name = "XTENSION" then
       match kw0.value with
       | KeywordValue.String v =>
         if v = "IMAGE" then
           (Image.fromBytes hdr (rawbytes.drop offset)).map fun r => (r.1, offset + r.2)
         else if v = "TABLE" then
           (Table.fromBytes hdr (rawbytes.drop offset)).map fun r => (r.1, offset + r.2)
         else if v = "BINTABLE" then
           (BinTable.fromBytes hdr (rawbytes.drop offset)).map fun r => (r.1, offset + r.2)
         else Except.error (FErr.UnsupportedExtension v)
       | _ => Except.error (FErr.UnsupportedExtension "Extension Value not a string")
     else Except.ok (HDUData.None, offset)).map fun r =>
    (HDU.mk hdr r.1, padTo2880 r.2)

/-! ## Claims C3 (image pixel count) and C7 (short header block) -/

/-- Keyword with a boolean value and no comment. -/
def kwB (n : String) (b : Bool) : Keyword :=
  Keyword.mk n (KeywordValue.Bool b) Option.none

/-- A primary header with `NAXIS = 0` (a header-only HDU per the FITS
standard). -/
def c3Header : Header :=
  [kwB "SIMPLE" true, kwI "BITPIX" 8, kwI "NAXIS" 0,
   Keyword.mk "END" KeywordValue.None Option.none]

/-- C3: the claim says the pixel count is 0 when `NAXIS = 0` and that a
zero pixel count yields `HDUData::None`.  The code computes the pixel
count as `axes.iter().product()`, which is 1 for the empty axis list:
with `BITPIX = 8, NAXIS = 0` the decoder consumes 1 byte and builds an
`Image` — and panics on the slice when the data area is empty, the very
layout of a header-only primary HDU. -/
theorem c3_code_bug :
    Image.fromBytes c3Header [7]
      = Except.ok (HDUData.Image
          (Image.mk Bitpix.Int8 [] [7] Option.none 1 0), 1) ∧
    Image.fromBytes c3Header [] = Except.error FErr.rustPanic ∧
    ¬ List.prod ([] : List Nat) = 0 := by
  refine ⟨by decide, by decide, by decide⟩

/-- C7: the claim says that with fewer than 2880 bytes left for a header
block, `HDU::from_bytes` fails with `InvalidHeader` and does not panic.
The block loop slices `rawbytes[nheaders*2880..(nheaders+1)*2880]` before
any length check, so a 100-byte buffer panics; the `InvalidHeader` guard
inside `FITSBlock::from_bytes` (which this claim describes, second
conjunct) is unreachable from `HDU::from_bytes`, which always passes an
exactly-2880-byte slice. -/
theorem c7_code_bug :
    HDU.fromBytes (List.replicate 100 32) = Except.error FErr.rustPanic ∧
    FITSBlock.fromBytes (List.replicate 100 32) = Except.error FErr.InvalidHeader := by
  refine ⟨by decide, by decide⟩

/-! ## Claim C2 (round-trip offset law) -/

/-- The data bytes an image header declares: `axes.prod * bitpix.size`,
read back from the header the way `Image::from_bytes` reads it. -/
def imageDeclared (hdr : Header) : Option Nat :=
  match Image.meta hdr with
  | Except.ok m => Option.some (m.2.2.prod * m.1.size)
  | Except.error _ => Option.none

/-- The data bytes an ASCII-table header declares: `NAXIS2 * NAXIS1`. -/
def tableDeclared (hdr : Header) : Option Nat :=
  match Table.prefixMeta hdr with
  | Except.ok m => Option.some (m.2.1 * m.1)
  | Except.error _ => Option.none

/-- The data bytes a binary-table header declares: `PCOUNT + THEAP`. -/
def binDeclared (hdr : Header) : Option Nat :=
  match BinTable.prefixMeta hdr with
  | Except.ok m => Option.some (m.2.2.1 + m.2.2.2.2)
  | Except.error _ => Option.none

/-- The data bytes declared by a header, following the dispatch of
`HDU::from_bytes` on its first keyword; headers that carry no payload
declare 0. -/
def declaredDataBytes (hdr : Header) : Option Nat :=
  match hdr with
  | [] => Option.some 0
  | kw0 :: _ =>
    if kw0.name = "SIMPLE" then imageDeclared hdr
    else if kw0.name = "XTENSION" then
      match kw0.value with
      | KeywordValue.String v =>
        if v = "IMAGE" then imageDeclared hdr
        else if v = "TABLE" then tableDeclared hdr
        else if v = "BINTABLE" then binDeclared hdr
        else Option.none
      | _ => Option.none
    else Option.some 0

theorem image_consumed_declared (hdr : Header) (raw : List Nat)
    (d : HDUData) (nb : Nat)
    (h : Image.fromBytes hdr raw = Except.ok (d, nb)) :
    imageDeclared hdr = Option.some nb := by
  unfold Image.fromBytes at h
  cases hm : Image.meta hdr with
  | error e => rw [hm] at h; simp [Except.bind] at h
  | ok m =>
    rw [hm] at h
    simp only [Except.bind] at h
    cases hpg : Image.readPGIf hdr m.2.1 with
    | error e => rw [hpg] at h; simp [Except.bind] at h
    | ok pg =>
      rw [hpg] at h
      simp only at h
      unfold imageDeclared
      rw [hm]
      by_cases hnb : m.2.2.prod * m.1.size > 0
      · rw [if_pos hnb] at h
        cases hsl : rustSlice raw 0 (m.2.2.prod * m.1.size) with
        | error e => rw [hsl] at h; simp [Except.bind] at h
        | ok raw0 =>
          rw [hsl] at h
          simp only [Except.bind] at h
          cases hw : WCS.fromHeader hdr with
          | error e => rw [hw] at h; simp [Except.map] at h
          | ok wcs =>
            rw [hw] at h
            simp only [Except.map, Except.ok.injEq, Prod.mk.injEq] at h
            exact congrArg Option.some h.2
      · rw [if_neg hnb] at h
        simp only [Except.ok.injEq, Prod.mk.injEq] at h
        exact congrArg Option.some h.2

theorem table_consumed_declared (hdr : Header) (raw : List Nat)
    (d : HDUData) (nb : Nat)
    (h : Table.fromBytes hdr raw = Except.ok (d, nb)) :
    tableDeclared hdr = Option.some nb := by
  unfold Table.fromBytes at h
  cases hm : Table.prefixMeta hdr with
  | error e => rw [hm] at h; simp [Except.bind] at h
  | ok m =>
    rw [hm] at h
    simp only [Except.bind] at h
    cases hc : Table.readCols hdr 0 m.2.2 with
    | error e => rw [hc] at h; simp [Except.bind] at h
    | ok cols =>
      rw [hc] at h
      simp only at h
      unfold tableDeclared
      rw [hm]
      by_cases hlen : raw.length < m.2.1 * m.1
      · rw [if_pos hlen] at h; simp at h
      · rw [if_neg hlen] at h
        cases hr : Table.decodeRows cols raw m.1 0 m.2.1 with
        | error e => rw [hr] at h; simp [Except.map] at h
        | ok rows =>
          rw [hr] at h
          simp only [Except.map, Except.ok.injEq, Prod.mk.injEq] at h
          exact congrArg Option.some h.2

theorem bintable_consumed_declared (hdr : Header) (raw : List Nat)
    (d : HDUData) (nb : Nat)
    (h : BinTable.fromBytes hdr raw = Except.ok (d, nb)) :
    binDeclared hdr = Option.some nb := by
  unfold BinTable.fromBytes at h
  cases hm : BinTable.prefixMeta hdr with
  | error e => rw [hm] at h; simp [Except.bind] at h
  | ok m =>
    rw [hm] at h
    simp only [Except.bind] at h
    cases hc : BinTable.readCols hdr 0 m.2.2.2.1 with
    | error e => rw [hc] at h; simp [Except.bind] at h
    | ok cols =>
      rw [hc] at h
      simp only at h
      unfold binDeclared
      rw [hm]
      by_cases hlen : raw.length < m.2.2.1 + m.2.2.2.2
      · rw [if_pos hlen] at h; simp at h
      · rw [if_neg hlen] at h
        simp only [Except.ok.injEq, Prod.mk.injEq] at h
        exact congrArg Option.some h.2

/-- C2: whenever `HDU::from_bytes` succeeds, the consumed byte count is a
multiple of 2880 and at least the header block bytes (2880 per scanned
block) plus the data bytes the header declares. -/
theorem c2_offset_law (raw : List Nat) (hdu : HDU) (n : Nat)
    (h : HDU.fromBytes raw = Except.ok (hdu, n)) :
    n % 2880 = 0 ∧
    ∃ nheaders db,
      scanHeader raw 0 [] (raw.length / 2880 + 1)
        = Except.ok (hdu.header, nheaders) ∧
      declaredDataBytes hdu.header = Option.some db ∧
      nheaders * 2880 + db ≤ n := by
  unfold HDU.fromBytes at h
  cases hs : scanHeader raw 0 [] (raw.length / 2880 + 1) with
  | error e => rw [hs] at h; simp [Except.bind] at h
  | ok p =>
    rw [hs] at h
    simp only [Except.bind] at h
    obtain ⟨hdr, nh⟩ := p
    cases hdr with
    | nil =>
      dsimp only at h
      simp only [Except.ok.injEq, Prod.mk.injEq] at h
      obtain ⟨hhdu, hn⟩ := h
      subst hhdu
      refine ⟨by omega, nh, 0, rfl, by rfl, by omega⟩
    | cons kw0 rest =>
      dsimp only at h
      by_cases hsi : kw0.name = "SIMPLE"
      · rw [if_pos hsi] at h
        cases hi : Image.fromBytes (kw0 :: rest) (raw.drop (nh * 2880)) with
        | error e => rw [hi] at h; simp [Except.map] at h
        | ok r =>
          rw [hi] at h
          simp only [Except.map, Except.ok.injEq, Prod.mk.injEq] at h
          obtain ⟨hhdu, hn⟩ := h
          subst hhdu
          have hd := image_consumed_declared _ _ _ _ hi
          have hpad := padTo2880_spec (nh * 2880 + r.2)
          refine ⟨by omega, nh, r.2, rfl, ?_, by omega⟩
          simp only [declaredDataBytes, if_pos hsi]
          exact hd
      · by_cases hxt : kw0.name = "XTENSION"
        · rw [if_neg hsi, if_pos hxt] at h
          cases hv : kw0.value with
          | String v =>
            rw [hv] at h
            dsimp only at h
            by_cases hvi : v = "IMAGE"
            · rw [if_pos hvi] at h
              cases hi : Image.fromBytes (kw0 :: rest) (raw.drop (nh * 2880)) with
              | error e => rw [hi] at h; simp [Except.map] at h
              | ok r =>
                rw [hi] at h
                simp only [Except.map, Except.ok.injEq, Prod.mk.injEq] at h
                obtain ⟨hhdu, hn⟩ := h
                subst hhdu
                have hd := image_consumed_declared _ _ _ _ hi
                have hpad := padTo2880_spec (nh * 2880 + r.2)
                refine ⟨by omega, nh, r.2, rfl, ?_, by omega⟩
                simp only [declaredDataBytes, if_neg hsi, if_pos hxt, hv,
                  if_pos hvi]
                exact hd
            · by_cases hvt : v = "TABLE"
              · rw [if_neg hvi, if_pos hvt] at h
                cases hi : Table.fromBytes (kw0 :: rest) (raw.drop (nh * 2880)) with
                | error e => rw [hi] at h; simp [Except.map] at h
                | ok r =>
                  rw [hi] at h
                  simp only [Except.map, Except.ok.injEq, Prod.mk.injEq] at h
                  obtain ⟨hhdu, hn⟩ := h
                  subst hhdu
                  have hd := table_consumed_declared _ _ _ _ hi
                  have hpad := padTo2880_spec (nh * 2880 + r.2)
                  refine ⟨by omega, nh, r.2, rfl, ?_, by omega⟩
                  simp only [declaredDataBytes, if_neg hsi, if_pos hxt, hv,
                    if_neg hvi, if_pos hvt]
                  exact hd
              · by_cases hvb : v = "BINTABLE"
                · rw [if_neg hvi, if_neg hvt, if_pos hvb] at h
                  cases hi : BinTable.fromBytes (kw0 :: rest) (raw.drop (nh * 2880)) with
                  | error e => rw [hi] at h; simp [Except.map] at h
                  | ok r =>
                    rw [hi] at h
                    simp only [Except.map, Except.ok.injEq, Prod.mk.injEq] at h
                    obtain ⟨hhdu, hn⟩ := h
                    subst hhdu
                    have hd := bintable_consumed_declared _ _ _ _ hi
                    have hpad := padTo2880_spec (nh * 2880 + r.2)
                    refine ⟨by omega, nh, r.2, rfl, ?_, by omega⟩
                    simp only [declaredDataBytes, if_neg hsi, if_pos hxt, hv,
                      if_neg hvi, if_neg hvt, if_pos hvb]
                    exact hd
                · rw [if_neg hvi, if_neg hvt, if_neg hvb] at h
                  simp [Except.map] at h
          | Bool b => rw [hv] at h; simp [Except.map] at h
          | Int i => rw [hv] at h; simp [Except.map] at h
          | Float f => rw [hv] at h; simp [Except.map] at h
          | ComplexInt a b => rw [hv] at h; simp [Except.map] at h
          | ComplexFloat a b => rw [hv] at h; simp [Except.map] at h
          | Undefined => rw [hv] at h; simp [Except.map] at h
          | None => rw [hv] at h; simp [Except.map] at h
        · rw [if_neg hsi, if_neg hxt] at h
          simp only [Except.map, Except.ok.injEq, Prod.mk.injEq] at h
          obtain ⟨hhdu, hn⟩ := h
          subst hhdu
          have hpad := padTo2880_spec (nh * 2880)
          refine ⟨by omega, nh, 0, rfl, ?_, by omega⟩
          simp only [declaredDataBytes, if_neg hsi, if_neg hxt]

/-- An 80-byte record reading `END` followed by spaces. -/
def endRecord : List Nat := [69, 78, 68] ++ List.replicate 77 32

/-- An 80-byte all-space (blank) record. -/
def blankRecord : List Nat := List.replicate 80 32

/-- One header block: an `END` record then 35 blank records. -/
def c2Raw : List Nat := endRecord ++ List.replicate 2800 32

/-- The keyword the `END` record parses to. -/
def endKw : Keyword := Keyword.mk "END" KeywordValue.None Option.none

/-- The keyword a blank record parses to. -/
def blankKw : Keyword := Keyword.mk "" KeywordValue.None Option.none

theorem c2Raw_length : c2Raw.length = 2880 := by
  rw [c2Raw, endRecord]
  simp only [List.length_append, List.length_replicate, List.length_cons,
    List.length_nil]

theorem keyword_end_eval : Keyword.new endRecord = Except.ok endKw := by decide

theorem keyword_blank_eval : Keyword.new blankRecord = Except.ok blankKw := by
  decide

theorem slice_rec0 : rustSlice c2Raw 0 80 = Except.ok endRecord := by
  unfold rustSlice
  rw [c2Raw_length]
  rw [if_pos ⟨by omega, by omega⟩]
  refine congrArg Except.ok ?_
  rw [List.drop_zero, Nat.sub_zero, c2Raw,
    List.take_append_of_le_length (by simp [endRecord])]
  rw [show (80 : Nat) = endRecord.length by simp [endRecord]]
  exact List.take_length endRecord
theorem slice_recI (i : Nat) (h1 : 1 ≤ i) (h2 : i ≤ 35) :
    rustSlice c2Raw (i * 80) ((i + 1) * 80) = Except.ok blankRecord := by
  unfold rustSlice
  rw [c2Raw_length]
  rw [if_pos ⟨by omega, by omega⟩]
  refine congrArg Except.ok ?_
  have hlen : endRecord.length = 80 := by simp [endRecord]
  have hsplit : i * 80 = endRecord.length + (i * 80 - 80) := by rw [hlen]; omega
  have hd : c2Raw.drop (i * 80) = List.replicate (2800 - (i * 80 - 80)) 32 := by
    rw [c2Raw, hsplit, List.drop_append, List.drop_replicate]
    refine congrArg (fun n => List.replicate n 32) ?_
    rw [hlen]
    omega
  rw [hd, List.take_replicate, blankRecord]
  refine congrArg (fun n => List.replicate n 32) ?_
  omega
theorem blockRecords_blank : ∀ (k i : Nat), 1 ≤ i → i + k = 36 →
    blockRecords c2Raw i k = Except.ok (List.replicate k blankKw) := by
  intro k
  induction k with
  | zero => intro i _ _; rfl
  | succ m ih =>
      intro i hge hsum
      show blockRecords c2Raw i (Nat.succ m) = _
      rw [blockRecords, slice_recI i hge (by omega)]
      simp only [Except.bind]
      rw [keyword_blank_eval]
      simp only [Except.bind]
      rw [ih (i + 1) (by omega) (by omega)]
      rfl

theorem blockRecords_c2 :
    blockRecords c2Raw 0 36 = Except.ok (endKw :: List.replicate 35 blankKw) := by
  show blockRecords c2Raw 0 (Nat.succ 35) = _
  rw [blockRecords]
  have h0 : rustSlice c2Raw (0 * 80) ((0 + 1) * 80) = Except.ok endRecord := by
    rw [Nat.zero_mul, show (0 + 1) * 80 = 80 by omega]
    exact slice_rec0
  rw [h0]
  simp only [Except.bind]
  rw [keyword_end_eval]
  simp only [Except.bind]
  rw [blockRecords_blank 35 1 (by omega) (by omega)]
  rfl

theorem fitsblock_c2 :
    FITSBlock.fromBytes c2Raw = Except.ok (endKw :: List.replicate 35 blankKw) := by
  unfold FITSBlock.fromBytes
  rw [if_neg (by rw [c2Raw_length]; omega)]
  exact blockRecords_c2

theorem scan_c2 :
    scanHeader c2Raw 0 [] (c2Raw.length / 2880 + 1) = Except.ok ([endKw], 1) := by
  rw [c2Raw_length]
  show scanHeader c2Raw 0 [] (Nat.succ 1) = _
  rw [scanHeader]
  have hsl : rustSlice c2Raw (0 * 2880) ((0 + 1) * 2880) = Except.ok c2Raw := by
    unfold rustSlice
    rw [c2Raw_length]
    rw [if_pos ⟨by omega, by omega⟩]
    refine congrArg Except.ok ?_
    rw [List.drop_zero, Nat.zero_mul, Nat.sub_zero,
      show ((0 + 1) * 2880 : Nat) = c2Raw.length by rw [c2Raw_length]]
    exact List.take_length c2Raw
  rw [hsl]
  simp only [Except.bind]
  rw [fitsblock_c2]
  simp only [Except.bind]
  have hp : pushKeywords [] (endKw :: List.replicate 35 blankKw) = ([endKw], true) := rfl
  simp only [hp]
  rfl

theorem hdu_c2 :
    HDU.fromBytes c2Raw = Except.ok (HDU.mk [endKw] HDUData.None, 2880) := by
  unfold HDU.fromBytes
  rw [scan_c2]
  simp only [Except.bind]
  simp [endKw, padTo2880, Except.map]

/-- C2 witness: a single block whose first record is `END` decodes as a
payload-free HDU consuming exactly its 2880 header bytes. -/
theorem c2_witness :
    2880 % 2880 = 0 ∧
    ∃ nheaders db,
      scanHeader c2Raw 0 [] (c2Raw.length / 2880 + 1)
        = Except.ok ((HDU.mk [endKw] HDUData.None).header, nheaders) ∧
      declaredDataBytes (HDU.mk [endKw] HDUData.None).header = Option.some db ∧
      nheaders * 2880 + db ≤ 2880 :=
  c2_offset_law c2Raw (HDU.mk [endKw] HDUData.None) 2880 hdu_c2

end Fits
